import Mathlib

/-!
Verification development for the brand-filter pipeline
(src/brand_filter.py).  The Python source is shallowly embedded below:
pure helper functions become Lean functions on `String`/`List Char`,
Python dictionaries become association lists or lookup functions, and
the regular-expression cleanup pipeline is embedded through a small
backtracking matcher (`Rx`/`mtch`) whose semantics mirror Python
`re.sub` on the concrete patterns used by the source.  Recursion that
Python bounds dynamically (string replacement scans, the recursive
NG-word removal) is embedded with an explicit fuel argument equal to
the bound the source relies on, so every definition is executable and
kernel-reducible; fuel adequacy is proved where a claim depends on it.
-/

set_option maxHeartbeats 1000000

set_option maxRecDepth 4000

namespace BrandFilter

/-! ### Basic Python string primitives -/

/-- Whitespace as matched by Python's `\s` / `str.split()` / `str.strip()`
on the character repertoire of this data set (ASCII whitespace plus the
ideographic space).  -/
def pyIsSpace (c : Char) : Bool :=
  c == ' ' || c == '\t' || c == '\n' || c == '\r' || c == '\x0b' || c == '\x0c' || c == '　'

/-- Helper of `pySplit`: accumulates the current word (reversed) while
scanning the character list.  -/
def splitWsAux : List Char → List Char → List String
  | acc, [] => if acc.isEmpty then [] else [String.mk acc.reverse]
  | acc, c :: rest =>
    if pyIsSpace c then
      if acc.isEmpty then splitWsAux [] rest
      else String.mk acc.reverse :: splitWsAux [] rest
    else splitWsAux (c :: acc) rest

/-- Python `str.split()` with no argument: split on runs of whitespace,
discarding empty pieces.  -/
def pySplit (s : String) : List String := splitWsAux [] s.toList

/-- Helper of `pySplitTab`.  -/
def splitTabAux : List Char → List Char → List String
  | acc, [] => [String.mk acc.reverse]
  | acc, c :: rest =>
    if c == '\t' then String.mk acc.reverse :: splitTabAux [] rest
    else splitTabAux (c :: acc) rest

/-- Python `line.split('\t')`: split on each tab, keeping empty fields.  -/
def pySplitTab (s : String) : List String := splitTabAux [] s.toList

/-- Python `'\t'.join(parts)`.  -/
def joinTab (parts : List String) : String := String.intercalate "\t" parts

/-- Python `str.strip()` (default whitespace stripping).  -/
def pyStrip (s : String) : String :=
  String.mk (((s.toList.dropWhile pyIsSpace).reverse.dropWhile pyIsSpace).reverse)

/-- Python `str.lower()` (ASCII case folding; the catalogue data and brand
arguments exercised here are ASCII or Japanese, and Japanese characters are
case-invariant).  -/
def pyLower (s : String) : String := String.mk (s.toList.map Char.toLower)

/-- Python `str.upper()` (same remark as `pyLower`).  -/
def pyUpper (s : String) : String := String.mk (s.toList.map Char.toUpper)

/-- Python `sub in hay` (substring containment test).  -/
def strContains (hay sub : String) : Bool :=
  (List.range (hay.toList.length + 1)).any (fun i => sub.toList.isPrefixOf (hay.toList.drop i))

/-- Helper of `removeOcc` with explicit fuel (one unit per consumed
character); `removeOcc` supplies fuel `s.length`, which suffices because
every step consumes at least one character of `s`.  -/
def removeOccF (tgt : List Char) : Nat → List Char → List Char
  | _, [] => []
  | 0, s => s
  | n + 1, c :: rest =>
    if tgt.isPrefixOf (c :: rest) then removeOccF tgt n (rest.drop (tgt.length - 1))
    else c :: removeOccF tgt n rest

/-- Python `s.replace(tgt, '')` on character lists: remove every
(leftmost, non-overlapping) occurrence of `tgt`.  An empty target leaves
the string unchanged, exactly as in Python.  -/
def removeOcc (tgt s : List Char) : List Char :=
  if tgt.isEmpty then s else removeOccF tgt s.length s

/-- Python `s.replace(tgt, '')` on strings.  -/
def pyReplaceAll (s tgt : String) : String :=
  String.mk (removeOcc tgt.toList s.toList)

/-- Python string `<=`: lexicographic comparison by code point.  -/
def strLeAux : List Char → List Char → Bool
  | [], _ => true
  | _ :: _, [] => false
  | a :: as, b :: bs =>
    if a.toNat < b.toNat then true
    else if b.toNat < a.toNat then false
    else strLeAux as bs

/-- Lexicographic string order used by Python `sorted` on strings.  -/
def strLe (a b : String) : Bool := strLeAux a.toList b.toList

/-- Insertion step of `sortStrs`.  -/
def insertAsc (s : String) : List String → List String
  | [] => [s]
  | t :: rest => if strLe s t then s :: t :: rest else t :: insertAsc s rest

/-- Python `sorted(keys)` over (distinct) strings, as an insertion sort.  -/
def sortStrs (l : List String) : List String := l.foldr insertAsc []

/-- Insertion step of `sortDesc`.  -/
def insertDesc (n : Nat) : List Nat → List Nat
  | [] => [n]
  | m :: rest => if m ≤ n then n :: m :: rest else m :: insertDesc n rest

/-- Python `sorted(keys, reverse=True)` over distinct naturals.  -/
def sortDesc (l : List Nat) : List Nat := l.foldr insertDesc []

/-- Python set-`add` on a duplicate-free list model of a set.  -/
def setAdd (l : List String) (s : String) : List String :=
  if l.contains s then l else l ++ [s]

/-- Python `set.update` (union into the left set).  -/
def setUnion (a b : List String) : List String := b.foldl setAdd a

/-- Python `n` characters prefix slice `s[:n]`.  -/
def strTake (s : String) (n : Nat) : String := String.mk (s.toList.take n)

/-- Membership of a key in an association-list model of a Python dict.  -/
def memKeys (m : List (String × Nat)) (k : String) : Bool :=
  m.any (fun p => p.1 == k)

/-- Python `defaultdict(int)` increment `m[k] += 1` on an association
list: bump the existing entry, else append a fresh one (insertion order
is preserved as in a Python dict).  -/
def bump (m : List (String × Nat)) (k : String) : List (String × Nat) :=
  if memKeys m k then m.map (fun p => if p.1 == k then (p.1, p.2 + 1) else p)
  else m ++ [(k, 1)]

/-- Lookup with default `0`, as Python `m.get(k, 0)`.  -/
def lookupD (m : List (String × Nat)) (k : String) : Nat :=
  match m.find? (fun p => p.1 == k) with
  | some p => p.2
  | none => 0

/-! ### A small backtracking regular-expression engine

The patterns in `remove_ng_word_regex` only use literals, single-character
classes, greedy `+`/`*` over a character class, greedy optional groups,
ordered alternation and the `$` anchor (`^` anchoring is handled at the
substitution level).  `mtch` reproduces Python's backtracking semantics on
exactly this fragment: alternatives are tried left to right and quantifiers
match as many characters as possible, giving back one at a time.  -/

inductive Rx where
  | lit : String → Rx
  | litCI : String → Rx
  | cls : (Char → Bool) → Rx
  | plusCls : (Char → Bool) → Rx
  | starCls : (Char → Bool) → Rx
  | opt : Rx → Rx
  | alt : Rx → Rx → Rx
  | cat : Rx → Rx → Rx
  | eos : Rx

/-- Case-insensitive prefix test (for patterns compiled with
`re.IGNORECASE`).  -/
def ciPrefix : List Char → List Char → Bool
  | [], _ => true
  | _ :: _, [] => false
  | a :: as, b :: bs => (a.toLower == b.toLower) && ciPrefix as bs

/-- Greedy quantifier driver: try consuming `j, j-1, ..., lo` characters
of `s` (all known to be in the class), feeding the rest to the
continuation `k`; the longest success wins, as with Python's backtracking
greedy quantifiers.  -/
def tryTake (s : List Char) (k : List Char → Option (List Char)) (lo : Nat) : Nat → Option (List Char)
  | 0 => if lo = 0 then k s else none
  | j + 1 =>
    if j + 1 < lo then none
    else
      match k (s.drop (j + 1)) with
      | some r => some r
      | none => tryTake s k lo j

/-- Backtracking matcher in continuation-passing style: `mtch r s k`
matches `r` against a prefix of `s` and passes the remaining suffix to
`k`; the first (leftmost-alternative, greedy) overall success is
returned.  -/
def mtch : Rx → List Char → (List Char → Option (List Char)) → Option (List Char)
  | .lit w, s, k => if w.toList.isPrefixOf s then k (s.drop w.toList.length) else none
  | .litCI w, s, k => if ciPrefix w.toList s then k (s.drop w.toList.length) else none
  | .cls p, s, k =>
    match s with
    | [] => none
    | c :: rest => if p c then k rest else none
  | .plusCls p, s, k =>
    match (s.takeWhile p).length with
    | 0 => none
    | run + 1 => tryTake s k 1 (run + 1)
  | .starCls p, s, k => tryTake s k 0 (s.takeWhile p).length
  | .opt r, s, k =>
    (match mtch r s k with
     | some res => some res
     | none => k s)
  | .alt a b, s, k =>
    (match mtch a s k with
     | some res => some res
     | none => mtch b s k)
  | .cat a b, s, k => mtch a s (fun s1 => mtch b s1 k)
  | .eos, s, k => if s.isEmpty then k s else none

/-- One full (unanchored) `re.sub` scan with fuel: at each position try a
match; on success emit the replacement and continue after the matched
text, otherwise keep the character and move on.  Every pattern fed
through this function matches at least one character, so the
`otherwise` arm of the inner guard (an empty match) is unreachable; fuel
`s.length` suffices because every step consumes at least one character.  -/
def rsubF (rx : Rx) (repl : List Char) : Nat → List Char → List Char
  | _, [] => []
  | 0, s => s
  | n + 1, c :: rest =>
    match mtch rx (c :: rest) some with
    | some remaining =>
      if remaining.length < rest.length + 1 then repl ++ rsubF rx repl n remaining
      else c :: rsubF rx repl n rest
    | none => c :: rsubF rx repl n rest

/-- Python `re.sub(pattern, repl, s)` for an unanchored pattern.  -/
def rsub (rx : Rx) (repl : String) (s : String) : String :=
  String.mk (rsubF rx repl.toList s.toList.length s.toList)

/-- Python `re.sub(pattern, repl, s)` for a pattern anchored with `^`
(without `re.MULTILINE` such a pattern can only match at position 0, so
at most one replacement happens).  -/
def rsubStart (rx : Rx) (repl : String) (s : String) : String :=
  match mtch rx s.toList some with
  | some remaining =>
    if remaining.length < s.toList.length then String.mk (repl.toList ++ remaining)
    else s
  | none => s

/-- One `title = re.sub(...)` line of the source: either an unanchored
or a `^`-anchored substitution.  -/
inductive SubRule where
  | sub : Rx → String → SubRule
  | subStart : Rx → String → SubRule

/-- Apply one substitution rule.  -/
def applyRule (s : String) (r : SubRule) : String :=
  match r with
  | .sub rx repl => rsub rx repl s
  | .subStart rx repl => rsubStart rx repl s

/-- Replacement length of a rule (each rule of the source replaces with
the empty string or a single space).  -/
def SubRule.replLen : SubRule → Nat
  | .sub _ repl => repl.toList.length
  | .subStart _ repl => repl.toList.length

/-- Ordered alternation of literal strings, first alternative preferred
(Python `(w|x|y)`).  -/
def altStrs : String → List String → Rx
  | w, [] => .lit w
  | w, x :: rest => .alt (.lit w) (altStrs x rest)

/-- Right-nested concatenation of a nonempty pattern list.  -/
def seqR : Rx → List Rx → Rx
  | r, [] => r
  | r, x :: rest => .cat r (seqR x rest)

/-! ### NGWordProcessor.remove_ng_word_regex -/

/-- Python `\d+` (the data is ASCII-digit only).  -/
def rxD : Rx := .plusCls Char.isDigit

/-- Character class `[0-9!@#$%^&*_+\-=]` of the symbol/digit token rules.  -/
def symCls (c : Char) : Bool := c.isDigit || "!@#$%^&*_+-=".toList.contains c

/-- Character class `[0-9,]` of the quantity rules.  -/
def numComma (c : Char) : Bool := c.isDigit || c == ','

/-- Pattern `(個|本|枚|回|袋|ml|g|kg|l)` of the quantity+unit rules
(alternatives in source order).  -/
def unitAlt : Rx := altStrs "個" ["本", "枚", "回", "袋", "ml", "g", "kg", "l"]

/-- Pattern `(入り|入|セット|)` of the quantity+unit rules (the empty
alternative comes last in the source, so the group is a greedy
optional).  -/
def unitSfx : Rx := .opt (altStrs "入り" ["入", "セット"])

/-- The ordered `re.sub` pipeline of `remove_ng_word_regex`, one entry
per source line (rules whose `re.IGNORECASE` flag is irrelevant because
the pattern has no cased letter use plain literals).  -/
def ngRegexRules : List SubRule := [
  .sub (seqR (.lit "-") [rxD, .lit "迄"]) "",
  .sub (seqR (.lit "-") [rxD, altStrs "は" ["まで"]]) "",
  .sub (seqR rxD [altStrs "迄" ["まで", "代"]]) "",
  .sub (seqR (altStrs "20" ["19"]) [rxD, .lit "年"]) "",
  .sub (seqR rxD [.lit "月", rxD, .lit "日"]) "",
  .sub (seqR rxD [.lit "月"]) "",
  .sub (seqR rxD [.lit "日間"]) "",
  .sub (seqR rxD [.lit "日"]) "",
  .sub (seqR rxD [.lit "円引", .opt (.lit "き")]) "",
  .sub (seqR (.lit "全") [rxD, .lit "色"]) "",
  .sub (seqR (.lit "増量") [rxD, .lit "倍"]) "",
  .sub (seqR (.lit "いずれか") [rxD, .lit "点"]) "",
  .sub (seqR (.lit "ポイント") [rxD, .lit "倍"]) "",
  .sub (seqR rxD [.lit "月", altStrs "上旬" ["中旬", "下旬"]]) "",
  .sub (seqR (altStrs "先着" ["抽選"]) [rxD, altStrs "人" ["名"], .opt (.lit "様")]) "",
  .sub (seqR (.opt (.lit "最大")) [rxD, .litCI "円off"]) "",
  .sub (seqR (.opt (.lit "最大")) [.litCI "p", rxD, .lit "倍"]) "",
  .sub (seqR rxD [.litCI "円off"]) "",
  .sub (seqR rxD [.lit "円"]) "",
  .sub (seqR rxD [.litCI "%off"]) "",
  .sub (seqR rxD [.lit "/", rxD, .lit "(", altStrs "月" ["火", "水", "木", "金", "土", "日"], .lit ")"]) "",
  .sub (seqR rxD [.lit "/", rxD, .lit " ", rxD, .lit ":", rxD, .lit "-", rxD, .lit ":", rxD]) "",
  .sub (seqR rxD [.lit "%ポイントバック"]) "",
  .sub (.litCI "スーパーsale") "",
  .sub (seqR (.opt (.lit "協賛"))
        [.lit "ポイント", .opt (.lit "最大"),
         .alt (.cat (.cls (fun c => '1' ≤ c && c ≤ '9')) (.starCls Char.isDigit)) (.lit "0"),
         .opt (.cat (.lit ".") (.plusCls Char.isDigit)),
         .lit "倍", .opt (.lit "!")]) "",
  .sub (seqR rxD [.lit "/", rxD, .lit "-", rxD, .lit "/", rxD]) "",
  .sub (seqR rxD [.lit "/", rxD, .lit "-", rxD, .lit ":", rxD]) "",
  .sub (seqR rxD [.lit "/", rxD, .lit " ", rxD, .lit ":", rxD, .lit "-"]) "",
  .sub (seqR rxD [.lit "/", rxD, .lit " ", rxD, .lit ":", rxD]) "",
  .sub (seqR rxD [.lit ":", rxD, .alt (.litCI "am") (.litCI "pm")]) "",
  .sub (seqR rxD [.lit ":", rxD]) "",
  .sub (seqR (.lit "(") [altStrs "日" ["月", "火", "水", "木", "金", "土"], .lit ")",
        rxD, .lit "時", rxD, .lit "分までエントリー"]) "",
  .sub (seqR (altStrs "1" ["2", "3", "4", "5", "6", "7", "8", "9", "10", "11", "12"]) [.lit "/", rxD]) "",
  .subStart (.cat (.plusCls symCls) (.cls pyIsSpace)) "",
  .sub (seqR (.cls pyIsSpace) [.plusCls symCls, .cls pyIsSpace]) " ",
  .sub (seqR (.cls pyIsSpace) [.plusCls symCls, .eos]) "",
  .subStart (seqR (.opt (.plusCls numComma)) [unitAlt, unitSfx, .cls pyIsSpace]) "",
  .sub (seqR (.cls pyIsSpace) [.opt (.plusCls numComma), unitAlt, unitSfx, .cls pyIsSpace]) " ",
  .sub (seqR (.cls pyIsSpace) [.opt (.plusCls numComma), unitAlt, unitSfx, .eos]) "",
  .sub (.plusCls pyIsSpace) " "]

/-- `NGWordProcessor.remove_ng_word_regex`: the ordered substitution
pipeline followed by the final `title.strip()`.  -/
def remove_ng_word_regex (title : String) : String :=
  pyStrip (ngRegexRules.foldl applyRule title)

/-! ### The NG dictionary and NGWordProcessor.remove_ng_words -/

/-- The nested index `self.ng : length -> first character -> set of words`,
modelled as the list of its outer keys (in insertion order, as a Python
dict iterates) together with the three-level membership test.  The
parallel `self.ng_pattern` regex registry of the source is populated but
never consulted during removal (see the design notes of the spec), so it
is not modelled.  -/
structure NGDict where
  keys : List Nat
  member : Nat → Char → String → Bool

/-- The empty NG dictionary.  -/
def NGDict.emptyDict : NGDict := ⟨[], fun _ _ _ => false⟩

/-- One line of `get_nglist`: index the word under its length and first
character.  A (stripped) empty line is indexed under length 0 with the
empty-string inner key of the source, which no removal query can reach
(queries always carry a real first character), so its membership entry
is dropped while its length key is kept.  -/
def NGDict.insert (d : NGDict) (w : String) : NGDict :=
  ⟨if d.keys.contains w.length then d.keys else d.keys ++ [w.length],
   fun l c t =>
     (match w.toList with
      | [] => false
      | c0 :: _ => l == w.length && c == c0 && t == w) || d.member l c t⟩

/-- `NGWordProcessor.get_nglist`: build the dictionary from the stripped
lines of the NG-word file.  -/
def get_nglist (lines : List String) : NGDict :=
  lines.foldl (fun d l => d.insert (pyStrip l)) NGDict.emptyDict

/-- Inner loop of the scan in `remove_ng_words`: at offset `i`, try the
dictionary's word lengths in the given (descending) order; lengths that
do not fit are skipped, the empty slice is skipped, and the first
matching slice is returned.  -/
def tryLens (d : NGDict) (title : List Char) (i : Nat) : List Nat → Option (List Char)
  | [] => none
  | wl :: rest =>
    if title.length < wl + i then tryLens d title i rest
    else
      match (title.drop i).take wl with
      | [] => tryLens d title i rest
      | c0 :: tl =>
        if d.member wl c0 (String.mk (c0 :: tl)) then some (c0 :: tl)
        else tryLens d title i rest

/-- Outer loop of the scan in `remove_ng_words`: offsets `0, 1, ...` from
left to right, word lengths in decreasing order at each offset; returns
the first matched substring, if any.  -/
def findMatch (d : NGDict) (title : List Char) : Option (List Char) :=
  (List.range title.length).findSome? (fun i => tryLens d title i (sortDesc d.keys))

/-- `NGWordProcessor.remove_ng_words` with explicit recursion fuel: run
the regex pipeline, scan for a dictionary match; on a hit remove every
occurrence of the matched substring and restart the whole function
(regex pipeline included, exactly as the Python recursion does).  Each
restart is on a strictly shorter title, so fuel `title.length + 1`
always suffices (`removeNgWordsF_eq_remove_ng_words` below).  -/
def removeNgWordsF (d : NGDict) : Nat → String → String
  | 0, title => title
  | n + 1, title =>
    match findMatch d (remove_ng_word_regex title).toList with
    | none => remove_ng_word_regex title
    | some tgt =>
      removeNgWordsF d n (String.mk (removeOcc tgt (remove_ng_word_regex title).toList))

/-- `NGWordProcessor.remove_ng_words`.  -/
def remove_ng_words (d : NGDict) (title : String) : String :=
  removeNgWordsF d (title.length + 1) title

/-! ### TokenProcessor: the three token dictionaries -/

/-- The three dictionaries of `TokenProcessor`, as lookup functions with
finite support: `htrue`/`hfalse` map a token to its count, `hconflict`
maps a token to the formatted pair of counts.  -/
structure TokenDicts where
  htrue : String → Option Nat
  hfalse : String → Option Nat
  hconflict : String → Option String

/-- Point update of a lookup function (Python `d[k] = v`).  -/
def updFun {α : Type} (f : String → Option α) (k : String) (v : α) : String → Option α :=
  fun s => if s = k then some v else f s

/-- Point deletion (Python `del d[k]`, here total: deleting an absent key
is a no-op, which matches the guarded `if token in d: del d[token]` of
the source).  -/
def delFun {α : Type} (f : String → Option α) (k : String) : String → Option α :=
  fun s => if s = k then none else f s

/-- The empty token dictionaries.  -/
def emptyTokenDicts : TokenDicts := ⟨fun _ => none, fun _ => none, fun _ => none⟩

/-- One row `(true_num, false_num, token)` of `TokenProcessor.read_tokens`:
a zero TRUE count files the token under FALSE, else a zero FALSE count
files it under TRUE, else it is a conflict storing the formatted pair.
Rows with fewer than three fields are skipped by the reader and are not
part of the row list.  -/
def readTokenRow (tp : TokenDicts) (r : Nat × Nat × String) : TokenDicts :=
  match r with
  | (true_num, false_num, token) =>
    if true_num = 0 then { tp with hfalse := updFun tp.hfalse token false_num }
    else if false_num = 0 then { tp with htrue := updFun tp.htrue token true_num }
    else { tp with hconflict := updFun tp.hconflict token (Nat.repr true_num ++ "|" ++ Nat.repr false_num) }

/-- Folding `read_tokens` rows into existing dictionaries.  -/
def loadTokensFrom (tp : TokenDicts) (rows : List (Nat × Nat × String)) : TokenDicts :=
  rows.foldl readTokenRow tp

/-- `TokenProcessor.read_tokens` over the parsed rows of the
token-frequency file.  -/
def loadTokens (rows : List (Nat × Nat × String)) : TokenDicts :=
  loadTokensFrom emptyTokenDicts rows

/-- One row `(flag, true_num, false_num, token)` of the manual-override
(`--add`) loader in `DataProcessor.filter_data`: a TRUE-tagged flag
force-assigns the token to `htrue` and removes it from `hconflict`; a
FALSE-tagged flag does the symmetric thing; any other flag is ignored.
Neither branch removes the token from the opposite TRUE/FALSE
dictionary.  -/
def addTokenRow (tp : TokenDicts) (r : String × Nat × Nat × String) : TokenDicts :=
  match r with
  | (flag, true_num, false_num, token) =>
    if flag = "対象" ∨ flag = "TRUE" then
      { tp with htrue := updFun tp.htrue token true_num,
                hconflict := delFun tp.hconflict token }
    else if flag = "対象外" ∨ flag = "非対象" ∨ flag = "FALSE" then
      { tp with hfalse := updFun tp.hfalse token false_num,
                hconflict := delFun tp.hconflict token }
    else tp

/-- Folding the override file's parsed rows (rows with fewer than four
fields are skipped by the reader and are not part of the list).  -/
def applyAddFile (tp : TokenDicts) (rows : List (String × Nat × Nat × String)) : TokenDicts :=
  rows.foldl addTokenRow tp

/-! ### TokenProcessor.get_tokens_from_title -/

/-- The `hash_info` counters of `get_tokens_from_title` (the source uses
a `defaultdict(int)` with exactly the keys `length`, `true`, `false`,
`conflict`).  -/
structure TitleStats where
  length : Nat
  trueCnt : Nat
  falseCnt : Nat
  conflictCnt : Nat
deriving DecidableEq

/-- The full result of `get_tokens_from_title`: counters plus the three
result sets (modelled as duplicate-free lists in insertion order).  -/
structure TokenResult where
  stats : TitleStats
  trueWords : List String
  falseWords : List String
  conflictWords : List String
deriving DecidableEq

/-- The initial accumulator of `get_tokens_from_title`.  -/
def emptyTokenResult : TokenResult := ⟨⟨0, 0, 0, 0⟩, [], [], []⟩

/-- Loop body of `get_tokens_from_title`: bump the length counter, then
test membership in TRUE, FALSE, CONFLICT in that `if`/`elif` order, so a
token feeds at most one counter and one result set.  -/
def classifyToken (tp : TokenDicts) (r : TokenResult) (token : String) : TokenResult :=
  if (tp.htrue token).isSome then
    ⟨⟨r.stats.length + 1, r.stats.trueCnt + 1, r.stats.falseCnt, r.stats.conflictCnt⟩,
     setAdd r.trueWords token, r.falseWords, r.conflictWords⟩
  else if (tp.hfalse token).isSome then
    ⟨⟨r.stats.length + 1, r.stats.trueCnt, r.stats.falseCnt + 1, r.stats.conflictCnt⟩,
     r.trueWords, setAdd r.falseWords token, r.conflictWords⟩
  else if (tp.hconflict token).isSome then
    ⟨⟨r.stats.length + 1, r.stats.trueCnt, r.stats.falseCnt, r.stats.conflictCnt + 1⟩,
     r.trueWords, r.falseWords, setAdd r.conflictWords token⟩
  else
    ⟨⟨r.stats.length + 1, r.stats.trueCnt, r.stats.falseCnt, r.stats.conflictCnt⟩,
     r.trueWords, r.falseWords, r.conflictWords⟩

/-- `TokenProcessor.get_tokens_from_title`.  -/
def get_tokens_from_title (tp : TokenDicts) (title : String) : TokenResult :=
  (pySplit title).foldl (classifyToken tp) emptyTokenResult

/-! ### DataProcessor.filter_data: per-listing decision -/

/-- Python `re.sub(r'[\[\]\|]', ' ', s)`: each square bracket or pipe
becomes a space.  -/
def bracketToSpace (s : String) : String :=
  String.mk (s.toList.map (fun c => if c == '[' || c == ']' || c == '|' then ' ' else c))

/-- Python `re.sub(r'\s+', ' ', s)`: collapse whitespace runs to single
spaces (the same substitution as the last `ngRegexRules` entry).  -/
def collapseWsStr (s : String) : String := rsub (.plusCls pyIsSpace) " " s

/-- The verdict rule of `filter_data` on the merged counters: UNKNOWN
when both are zero, else TRUE on `num_true >= num_false` (ties favour
TRUE), else FALSE.  -/
def decideLabel (num_true num_false : Nat) : String :=
  if num_true = 0 ∧ num_false = 0 then "UNKNOWN"
  else if num_true ≥ num_false then "TRUE"
  else "FALSE"

/-- Additive merge of two classification results: counters add, result
sets union (Python `hash_info[key] += val` and `set.update`).  -/
def mergeTR (a b : TokenResult) : TokenResult :=
  ⟨⟨a.stats.length + b.stats.length, a.stats.trueCnt + b.stats.trueCnt,
    a.stats.falseCnt + b.stats.falseCnt, a.stats.conflictCnt + b.stats.conflictCnt⟩,
   setUnion a.trueWords b.trueWords, setUnion a.falseWords b.falseWords,
   setUnion a.conflictWords b.conflictWords⟩

/-- Classification outcome of one listing row in `filter_data` (the
printed line also carries floating-point ratio diagnostics and the
set-iteration-order token joins; those are presentation only and carry
no information beyond these fields).  -/
structure FilterOut where
  stats : TitleStats
  trueWords : List String
  falseWords : List String
  conflictWords : List String
  answer : String
deriving DecidableEq

/-- One stdin row of `DataProcessor.filter_data`: rows with fewer than
11 tab-separated fields are skipped (`none`); otherwise the secondary
title (field 4) is bracket/whitespace normalized, the raw primary title
(field 3) is not, each nonempty title is classified, and the results are
merged additively (counters) and by union (sets) before the verdict.  -/
def filter_data_line (tp : TokenDicts) (line : String) : Option FilterOut :=
  match pySplitTab line with
  | parts =>
    if parts.length < 11 then none
    else
      let ptitle := parts.getD 3 ""
      let ititle := parts.getD 4 ""
      let new_ititle := collapseWsStr (bracketToSpace ititle)
      let acc1 := if new_ititle ≠ "" then mergeTR emptyTokenResult (get_tokens_from_title tp new_ititle)
                  else emptyTokenResult
      let acc2 := if ptitle ≠ "" then mergeTR acc1 (get_tokens_from_title tp ptitle) else acc1
      some ⟨acc2.stats, acc2.trueWords, acc2.falseWords, acc2.conflictWords,
            decideLabel acc2.stats.trueCnt acc2.stats.falseCnt⟩

/-- Modelled from the spec: the Listing Decision Engine contract as the
spec words it, where BOTH title fields are run through the
whitespace/bracket normalization before token classification, and the
two results are merged additively (counters) and by union (sets).  Used
to compare the spec's claim against `filter_data_line`.  -/
def filter_data_line_spec (tp : TokenDicts) (line : String) : Option FilterOut :=
  match pySplitTab line with
  | parts =>
    if parts.length < 11 then none
    else
      let ptitle := parts.getD 3 ""
      let ititle := parts.getD 4 ""
      let new_ititle := collapseWsStr (bracketToSpace ititle)
      let new_ptitle := collapseWsStr (bracketToSpace ptitle)
      let acc := mergeTR (mergeTR emptyTokenResult (get_tokens_from_title tp new_ititle))
                         (get_tokens_from_title tp new_ptitle)
      some ⟨acc.stats, acc.trueWords, acc.falseWords, acc.conflictWords,
            decideLabel acc.stats.trueCnt acc.stats.falseCnt⟩

/-- Modelled from the spec as amended: the contract with only the
secondary title normalized and the primary title classified raw
(unconditional additive/union merging).  -/
def filter_data_line_amended (tp : TokenDicts) (line : String) : Option FilterOut :=
  match pySplitTab line with
  | parts =>
    if parts.length < 11 then none
    else
      let ptitle := parts.getD 3 ""
      let ititle := parts.getD 4 ""
      let new_ititle := collapseWsStr (bracketToSpace ititle)
      let acc := mergeTR (mergeTR emptyTokenResult (get_tokens_from_title tp new_ititle))
                         (get_tokens_from_title tp ptitle)
      some ⟨acc.stats, acc.trueWords, acc.falseWords, acc.conflictWords,
            decideLabel acc.stats.trueCnt acc.stats.falseCnt⟩

/-! ### DataProcessor.get_info_from_example and the Aggregation Reporter -/

/-- `DataProcessor.get_info_from_example`: extract
`(prediction, index, ptitle, ititle, g1_name)` from a tab-separated row,
in one of the two accepted shapes; `none` models the all-`None` tuple
returned for short rows or an unknown flag.  In the NO_PREDICTION shape
the ground-truth label (upper-cased) doubles as the prediction.  -/
def get_info_from_example (flag : String) (row : String) :
    Option (String × String × String × String × String) :=
  match pySplitTab row with
  | parts =>
    if flag = "NO_PREDICTION" then
      if parts.length < 11 then none
      else some (pyUpper (parts.getD 1 ""), parts.getD 0 "", parts.getD 3 "", parts.getD 4 "",
                 parts.getD 8 "")
    else if flag = "PREDICTION" then
      if parts.length < 12 then none
      else some (parts.getD 0 "", parts.getD 1 "", parts.getD 4 "", parts.getD 5 "",
                 parts.getD 9 "")
    else none

/-- Accumulated state of `main_processing`/`main_ng_word`: the
always-empty `item` dict, the `prod` dict, the global token counter
`hash_tokens`, and the per-token per-prediction frequency table `comp`
(its per-source-index and per-category sub-tallies are rendered only in
the optional index output mode and are omitted; they do not feed the
emit filter or the provenance flag).  -/
structure AggState where
  item : List (String × Nat)
  prod : List (String × Nat)
  hash_tokens : List (String × Nat)
  comp : List (String × List (String × Nat))

/-- The initial aggregation state.  -/
def emptyAggState : AggState := ⟨[], [], [], []⟩

/-- Python `comp[token][prediction]['freq'] += 1` on the nested
association list.  -/
def bumpComp (comp : List (String × List (String × Nat))) (token pred : String) :
    List (String × List (String × Nat)) :=
  if comp.any (fun p => p.1 == token) then
    comp.map (fun p => if p.1 == token then (p.1, bump p.2 pred) else p)
  else comp ++ [(token, bump [] pred)]

/-- Token-loop body shared by `main_processing` and `main_ng_word`:
count the token globally, under its prediction, and in `prod`.  -/
def aggToken (pred : String) (st : AggState) (token : String) : AggState :=
  ⟨st.item, bump st.prod token, bump st.hash_tokens token, bumpComp st.comp token pred⟩

/-- The whole token loop over a usable title.  -/
def aggTokens (st : AggState) (pred ptitle : String) : AggState :=
  (pySplit ptitle).foldl (aggToken pred) st

/-- One stdin row of `DataProcessor.main_processing`: extract the fields,
skip rows with an empty/absent prediction, normalize the secondary title,
fall back to it when the primary title is empty, then run the token
loop.  -/
def procLineMain (flag : String) (st : AggState) (line : String) : AggState :=
  match get_info_from_example flag (pyStrip line) with
  | none => st
  | some (prediction, _index, ptitle, ititle, _g1) =>
    if prediction = "" then st
    else
      let new_ititle := collapseWsStr (bracketToSpace ititle)
      let ptitle := if ptitle = "" then new_ititle else ptitle
      aggTokens st prediction ptitle

/-- One stdin row of `DataProcessor.main_ng_word`: as `procLineMain`,
but the usable title is additionally bracket/whitespace normalized and
run through `remove_ng_words` before tokenization.  -/
def procLineNg (d : NGDict) (flag : String) (st : AggState) (line : String) : AggState :=
  match get_info_from_example flag (pyStrip line) with
  | none => st
  | some (prediction, _index, ptitle, ititle, _g1) =>
    if prediction = "" then st
    else
      let new_ititle := collapseWsStr (bracketToSpace ititle)
      let ptitle := if ptitle = "" then new_ititle else ptitle
      let ptitle := remove_ng_words d (collapseWsStr (bracketToSpace ptitle))
      aggTokens st prediction ptitle

/-- Python `re.search(r'\w', token)` on this data: ASCII alphanumerics,
the underscore, and any non-ASCII character count as word characters
(Python's Unicode `\w` classifies the Japanese letters of this corpus as
word characters; non-ASCII punctuation is approximated as word text,
which only widens the set of emitted tokens).  -/
def hasWordChar (token : String) : Bool :=
  token.toList.any (fun c => c.isAlphanum || c == '_' || 0x80 ≤ c.toNat)

/-- Python `re.match(r'^\d+$', token)`.  -/
def isAllDigits (token : String) : Bool :=
  (mtch (.cat (.plusCls Char.isDigit) .eos) token.toList some).isSome

/-- Python `re.match(r'^[0-9,]+(kg|g|ml|l)$', token)`.  -/
def isQuantityToken (token : String) : Bool :=
  (mtch (.cat (.plusCls numComma) (.cat (altStrs "kg" ["g", "ml", "l"]) .eos)) token.toList some).isSome

/-- One emitted line of `put_token_list` (without the optional
index/category columns of `--idx` mode, which carry no further
decision-relevant state).  -/
structure OutRec where
  true_num : Nat
  false_num : Nat
  token : String
  flag : String
deriving DecidableEq

/-- Python `comp[token][pred]['freq'] if pred in comp[token] else 0`.  -/
def compFreq (comp : List (String × List (String × Nat))) (token pred : String) : Nat :=
  match comp.find? (fun p => p.1 == token) with
  | some p => lookupD p.2 pred
  | none => 0

/-- `DataProcessor.put_token_list`: iterate the sorted token keys, apply
the emit filter (length at least 2, at least one word character, not
purely numeric, not a bare quantity+unit token), compute the
`Item`/`Prod`/`NONE` provenance flag from the two membership dicts, and
emit the TRUE/FALSE frequencies.  -/
def put_token_list (hash_tokens : List (String × Nat))
    (comp : List (String × List (String × Nat)))
    (item prod : List (String × Nat)) : List OutRec :=
  (sortStrs (hash_tokens.map (fun p => p.1))).filterMap (fun token =>
    if token.length < 2 then none
    else if !hasWordChar token then none
    else if isAllDigits token then none
    else if isQuantityToken token then none
    else
      let flags := (if memKeys item token then ["Item"] else []) ++
                   (if memKeys prod token then ["Prod"] else [])
      let flag := if flags.isEmpty then "NONE" else String.intercalate "/" flags
      some ⟨compFreq comp token "TRUE", compFreq comp token "FALSE", token, flag⟩)

/-- `DataProcessor.main_processing` over the stdin rows.  -/
def main_processing (flag : String) (lines : List String) : List OutRec :=
  match lines.foldl (procLineMain flag) emptyAggState with
  | st => put_token_list st.hash_tokens st.comp st.item st.prod

/-- `DataProcessor.main_ng_word` over the stdin rows, given the loaded
NG dictionary.  -/
def main_ng_word (d : NGDict) (flag : String) (lines : List String) : List OutRec :=
  match lines.foldl (procLineNg d flag) emptyAggState with
  | st => put_token_list st.hash_tokens st.comp st.item st.prod

/-! ### JanCodeProcessor and the Catalogue Index -/

/-- `JanCodeProcessor.get_companycode_from_jancode`: a JAN code starting
with `49` or `45x` (x in 0..5) has a 7-character company prefix, any
other a 9-character prefix (Python slicing truncates at the string
end).  -/
def get_companycode_from_jancode (jancode : String) : String :=
  match jancode.toList with
  | '4' :: '9' :: _ => strTake jancode 7
  | '4' :: '5' :: c :: _ => if '0' ≤ c && c ≤ '5' then strTake jancode 7 else strTake jancode 9
  | _ => strTake jancode 9

/-- One catalogue entry `pm[makercd][jancode]` of
`ProductMasterProcessor`: maker name, brand name, the optional alternate
maker name (absent when the source field was empty), and the alternate
brand names (keys of the `mb` dict).  All strings are lowercased on
load by the source.  -/
structure PMEntry where
  name : String
  b : String
  mname : Option String
  mb : List String
deriving DecidableEq

/-- The built Catalogue Index, abstracted as the two lookups the
refinement pass performs: membership of a company code in `pm_code`, and
the two-level `pm[company][jancode]` entry lookup.  The loader inserts
into both structures under the same company-code keys.  -/
structure ProductMaster where
  code_mem : String → Bool
  pm : String → String → Option PMEntry

/-! ### refine_label_rancode -/

/-- Pass-1 statistics of one rancode group, after the deciding loop:
the TRUE count, the total count, and the derived verdict (`ans`).  The
source's floating `ratio = num_true / total` and its `> 0.5` tests are
modelled exactly over the integers as `2 * num_true > total`.  -/
structure GroupStat where
  numTrue : Nat
  total : Nat
  ans : String
deriving DecidableEq

/-- Pass 1 of `refine_label_rancode`: per-rancode prediction histogram
over the (stripped) buffered rows, skipping rows with fewer than four
fields and the sentinel rancode `0`.  -/
def collectRancode (lines : List String) : List (String × List (String × Nat)) :=
  lines.foldl (fun h line =>
    match pySplitTab line with
    | parts =>
      if parts.length < 4 then h
      else
        let prediction := parts.getD 0 ""
        let rancode := parts.getD 3 ""
        if rancode = "0" then h
        else if h.any (fun p => p.1 == rancode) then
          h.map (fun p => if p.1 == rancode then (p.1, bump p.2 prediction) else p)
        else h ++ [(rancode, bump [] prediction)]) []

/-- The deciding loop of `refine_label_rancode`: for every counted
group, the verdict is TRUE under strict majority of TRUE predictions
and NONE otherwise.  -/
def decideRancode (h : List (String × List (String × Nat))) : List (String × GroupStat) :=
  h.map (fun p =>
    let total := (p.2.map (fun q => q.2)).sum
    let num_true := lookupD p.2 "TRUE"
    (p.1, ⟨num_true, total, if 2 * num_true > total then "TRUE" else "NONE"⟩))

/-- Group-statistics lookup of pass 2 (`hash_rancode[rancode]`; a `none`
result models the `KeyError` the source would raise, which cannot happen
for a row that was counted in pass 1).  -/
def lookupStat (stats : List (String × GroupStat)) (rancode : String) : Option GroupStat :=
  match stats.find? (fun p => p.1 == rancode) with
  | some p => some p.2
  | none => none

/-- The company-name flag `c_flag` of `refine_label_rancode`: the
(already lowercased) target maker string occurs as a substring of the
catalogue maker name, or of the alternate maker name; either field must
be truthy (present and nonempty) first, as in the source.  -/
def companyMatch (e : PMEntry) (c_brand : String) : Bool :=
  (e.name ≠ "" && strContains (pyLower e.name) c_brand) ||
  (match e.mname with
   | some m => m ≠ "" && strContains (pyLower m) c_brand
   | none => false)

/-- The product-brand flag `p_flag` of `refine_label_rancode`: symmetric
substring containment between the (already lowercased) target product
brand and the truthy catalogue brand name, or either containment against
any alternate brand name.  -/
def productMatch (e : PMEntry) (p_brand : String) : Bool :=
  (e.b ≠ "" && (strContains (pyLower e.b) p_brand ||
                strContains p_brand (pyLower e.b))) ||
  e.mb.any (fun pm_brand =>
    strContains (pyLower pm_brand) p_brand || strContains p_brand (pyLower pm_brand))

/-- Pass 2 of `refine_label_rancode`, one buffered row: rows with fewer
than 12 fields or the sentinel rancode pass through unchanged; a strict
TRUE-majority group forces the label to TRUE; otherwise the catalogue is
consulted and the label is forced to TRUE exactly when both the
company-name containment flag and the symmetric brand containment flag
hold (`if p_flag and c_flag` in the source).  `p_brand`/`c_brand` arrive
already lowercased.  -/
def refineLine (pmd : ProductMaster) (p_brand c_brand : String)
    (stats : List (String × GroupStat)) (line : String) : String :=
  match pySplitTab line with
  | parts =>
    if parts.length < 12 then line
    else
      let rancode := parts.getD 3 ""
      if rancode = "0" then line
      else
        let jancode := pyReplaceAll rancode "1001000"
        let company_code := "10" ++ get_companycode_from_jancode jancode
        match lookupStat stats rancode with
        | none => line
        | some st =>
          if 2 * st.numTrue > st.total then joinTab (parts.set 0 "TRUE")
          else if !pmd.code_mem company_code then line
          else
            match pmd.pm company_code jancode with
            | none => line
            | some e =>
              if productMatch e p_brand && companyMatch e c_brand then
                joinTab (parts.set 0 "TRUE")
              else joinTab parts

/-- `refine_label_rancode` over the buffered stdin rows: strip, collect
and decide the group statistics, lowercase the configured brand
arguments, and replay every row through pass 2.  -/
def refine_label_rancode (pmd : ProductMaster) (pbrand cbrand : String)
    (lines : List String) : List String :=
  match lines.map pyStrip with
  | ls =>
    let stats := decideRancode (collectRancode ls)
    ls.map (refineLine pmd (pyLower pbrand) (pyLower cbrand) stats)

/-! ### Lemmas: substitution never lengthens the title -/

/-- Length of the character list of a string.  -/
theorem toList_length (s : String) : s.toList.length = s.length := rfl

/-- Length of a string built from a character list.  -/
theorem mk_length (l : List Char) : (String.mk l).length = l.length := rfl

/-- Each substitution scan step keeps the result no longer than its
input, provided the replacement is at most one character (every rule of
the source replaces with the empty string or one space).  -/
theorem rsubF_length_le (rx : Rx) (repl : List Char) (h : repl.length ≤ 1) :
    ∀ (n : Nat) (s : List Char), (rsubF rx repl n s).length ≤ s.length := by
  intro n
  induction n with
  | zero => intro s; cases s <;> simp [rsubF]
  | succ n ih =>
    intro s
    cases s with
    | nil => simp [rsubF]
    | cons c rest =>
      rw [rsubF]
      cases hm : mtch rx (c :: rest) some with
      | none =>
        have := ih rest
        simp only [List.length_cons]
        omega
      | some remaining =>
        by_cases hlt : remaining.length < rest.length + 1
        · have h1 := ih remaining
          simp only [hlt, if_true, List.length_append, List.length_cons]
          omega
        · have := ih rest
          simp only [hlt, if_false, List.length_cons]
          omega

/-- Anchored substitution never lengthens the string.  -/
theorem rsubStart_length_le (rx : Rx) (repl : String) (h : repl.toList.length ≤ 1)
    (s : String) : (rsubStart rx repl s).length ≤ s.length := by
  unfold rsubStart
  cases hm : mtch rx s.toList some with
  | none => exact le_refl _
  | some remaining =>
    by_cases hlt : remaining.length < s.toList.length
    · simp only [hlt, if_true]
      show (repl.toList ++ remaining).length ≤ s.toList.length
      rw [List.length_append]
      omega
    · simp only [hlt, if_false]
      exact le_refl _

/-- Applying any rule of the pipeline never lengthens the string.  -/
theorem applyRule_length_le (s : String) (r : SubRule) (h : r.replLen ≤ 1) :
    (applyRule s r).length ≤ s.length := by
  cases r with
  | sub rx repl =>
    exact rsubF_length_le rx repl.toList h s.toList.length s.toList
  | subStart rx repl => exact rsubStart_length_le rx repl h s

/-- Folding a list of one-character-replacement rules never lengthens
the string.  -/
theorem foldRules_length_le :
    ∀ (rules : List SubRule) (s : String), (∀ r ∈ rules, r.replLen ≤ 1) →
      (rules.foldl applyRule s).length ≤ s.length := by
  intro rules
  induction rules with
  | nil => intro s _; exact le_refl _
  | cons r rest ih =>
    intro s h
    have h1 : (applyRule s r).length ≤ s.length := applyRule_length_le s r (h r (by simp))
    have h2 := ih (applyRule s r) (fun q hq => h q (by simp [hq]))
    simpa using le_trans h2 h1

/-- Stripping never lengthens the string.  -/
theorem pyStrip_length_le (s : String) : (pyStrip s).length ≤ s.length := by
  show (((s.toList.dropWhile pyIsSpace).reverse.dropWhile pyIsSpace).reverse).length ≤ s.toList.length
  rw [List.length_reverse]
  calc ((s.toList.dropWhile pyIsSpace).reverse.dropWhile pyIsSpace).length
      ≤ (s.toList.dropWhile pyIsSpace).reverse.length := (List.dropWhile_sublist _).length_le
    _ = (s.toList.dropWhile pyIsSpace).length := List.length_reverse _
    _ ≤ s.toList.length := (List.dropWhile_sublist _).length_le

/-- The whole regex pipeline never lengthens the title.  -/
theorem remove_ng_word_regex_length_le (title : String) :
    (remove_ng_word_regex title).length ≤ title.length := by
  unfold remove_ng_word_regex
  have hr : ∀ r ∈ ngRegexRules, r.replLen ≤ 1 := by decide
  exact le_trans (pyStrip_length_le _) (foldRules_length_le ngRegexRules title hr)

/-! ### Lemmas: dictionary removal strictly shortens the title -/

/-- Bool prefix test agrees with the existential decomposition.  -/
theorem isPrefixOf_iff_exists : ∀ (a b : List Char), a.isPrefixOf b = true ↔ ∃ t, a ++ t = b := by
  intro a
  induction a with
  | nil => intro b; simp [List.isPrefixOf]
  | cons x xs ih =>
    intro b
    cases b with
    | nil => simp [List.isPrefixOf]
    | cons y ys =>
      simp only [List.isPrefixOf, Bool.and_eq_true, beq_iff_eq, ih ys]
      constructor
      · rintro ⟨hxy, t, ht⟩
        exact ⟨t, by rw [hxy, List.cons_append, ht]⟩
      · rintro ⟨t, ht⟩
        rw [List.cons_append] at ht
        injection ht with h1 h2
        exact ⟨h1, t, h2⟩

/-- Removal never lengthens the string.  -/
theorem removeOccF_length_le (tgt : List Char) :
    ∀ (n : Nat) (s : List Char), (removeOccF tgt n s).length ≤ s.length := by
  intro n
  induction n with
  | zero => intro s; cases s <;> simp [removeOccF]
  | succ n ih =>
    intro s
    cases s with
    | nil => simp [removeOccF]
    | cons c rest =>
      rw [removeOccF]
      by_cases hp : tgt.isPrefixOf (c :: rest) = true
      · have h1 := ih (rest.drop (tgt.length - 1))
        have h2 : (rest.drop (tgt.length - 1)).length ≤ rest.length := by
          rw [List.length_drop]; omega
        rw [if_pos hp]
        simp only [List.length_cons]
        omega
      · have := ih rest
        rw [if_neg hp]
        simp only [List.length_cons]
        omega

/-- With enough fuel, removing a nonempty substring that really occurs
strictly shortens the string.  -/
theorem removeOccF_length_lt (tgt : List Char) (htgt : tgt ≠ []) :
    ∀ (n : Nat) (s : List Char), s.length ≤ n →
      (∃ pre post, pre ++ tgt ++ post = s) → (removeOccF tgt n s).length < s.length := by
  intro n
  induction n with
  | zero =>
    intro s hs hocc
    obtain ⟨pre, post, hpp⟩ := hocc
    have : s = [] := List.eq_nil_of_length_eq_zero (Nat.le_zero.mp hs)
    subst this
    have := congrArg List.length hpp
    simp [List.length_append] at this
    cases tgt with
    | nil => exact absurd rfl htgt
    | cons a b => simp at this
  | succ n ih =>
    intro s hs hocc
    cases s with
    | nil =>
      obtain ⟨pre, post, hpp⟩ := hocc
      have := congrArg List.length hpp
      simp [List.length_append] at this
      cases tgt with
      | nil => exact absurd rfl htgt
      | cons a b => simp at this
    | cons c rest =>
      rw [removeOccF]
      by_cases hp : tgt.isPrefixOf (c :: rest) = true
      · have h1 := removeOccF_length_le tgt n (rest.drop (tgt.length - 1))
        have h2 : (rest.drop (tgt.length - 1)).length ≤ rest.length := by
          rw [List.length_drop]; omega
        rw [if_pos hp]
        simp only [List.length_cons]
        omega
      · obtain ⟨pre, post, hpp⟩ := hocc
        cases pre with
        | nil =>
          exfalso
          apply hp
          rw [isPrefixOf_iff_exists]
          exact ⟨post, by simpa using hpp⟩
        | cons p pre2 =>
          rw [List.cons_append, List.cons_append] at hpp
          injection hpp with hpc hrest
          have hocc2 : ∃ pre post, pre ++ tgt ++ post = rest :=
            ⟨pre2, post, by simpa using hrest⟩
          have := ih rest (by simp at hs; omega) hocc2
          rw [if_neg hp]
          simp only [List.length_cons]
          omega

/-- `removeOcc` strictly shortens the string when the nonempty target
occurs in it.  -/
theorem removeOcc_length_lt (tgt s : List Char) (htgt : tgt ≠ [])
    (hocc : ∃ pre post, pre ++ tgt ++ post = s) : (removeOcc tgt s).length < s.length := by
  unfold removeOcc
  have : tgt.isEmpty = false := by cases tgt with | nil => exact absurd rfl htgt | cons a b => rfl
  rw [this]
  exact removeOccF_length_lt tgt htgt s.length s (le_refl _) hocc

/-- Helper: any result of `List.findSome?` comes from some list
element.  -/
theorem exists_of_findSomeEq {α β : Type} (f : α → Option β) :
    ∀ (l : List α) (b : β), l.findSome? f = some b → ∃ a, a ∈ l ∧ f a = some b := by
  intro l
  induction l with
  | nil => intro b h; simp [List.findSome?] at h
  | cons a as ih =>
    intro b h
    rw [List.findSome?_cons] at h
    cases hfa : f a with
    | some c =>
      rw [hfa] at h
      have h2 : some c = some b := h
      injection h2 with h3
      exact ⟨a, by simp, by rw [hfa, h3]⟩
    | none =>
      rw [hfa] at h
      have h2 : List.findSome? f as = some b := h
      obtain ⟨x, hx, hfx⟩ := ih b h2
      exact ⟨x, by simp [hx], hfx⟩

/-- A slice `(l.drop i).take wl` occurs in `l`.  -/
theorem slice_occurs (l : List Char) (i wl : Nat) :
    ∃ pre post, pre ++ (l.drop i).take wl ++ post = l := by
  refine ⟨l.take i, (l.drop i).drop wl, ?_⟩
  rw [List.append_assoc, List.take_append_drop, List.take_append_drop]

/-- Any match returned by the inner length loop is a nonempty slice of
the scanned title.  -/
theorem tryLens_spec (d : NGDict) (title : List Char) (i : Nat) :
    ∀ (L : List Nat) (tgt : List Char), tryLens d title i L = some tgt →
      tgt ≠ [] ∧ ∃ pre post, pre ++ tgt ++ post = title := by
  intro L
  induction L with
  | nil => intro tgt h; simp [tryLens] at h
  | cons wl rest ih =>
    intro tgt h
    rw [tryLens] at h
    by_cases hfit : title.length < wl + i
    · rw [if_pos hfit] at h
      exact ih tgt h
    · rw [if_neg hfit] at h
      cases hsl : (title.drop i).take wl with
      | nil => rw [hsl] at h; exact ih tgt h
      | cons c0 tl =>
        rw [hsl] at h
        by_cases hmem : d.member wl c0 (String.mk (c0 :: tl)) = true
        · have h2 : (if d.member wl c0 (String.mk (c0 :: tl)) = true
              then some (c0 :: tl) else tryLens d title i rest) = some tgt := h
          rw [if_pos hmem] at h2
          injection h2 with h3
          subst h3
          refine ⟨by simp, ?_⟩
          rw [← hsl]
          exact slice_occurs title i wl
        · have h2 : (if d.member wl c0 (String.mk (c0 :: tl)) = true
              then some (c0 :: tl) else tryLens d title i rest) = some tgt := h
          rw [if_neg hmem] at h2
          exact ih tgt h2

/-- Any match returned by the scan of `remove_ng_words` is a nonempty
substring occurrence of the scanned title.  -/
theorem findMatch_spec (d : NGDict) (title : List Char) (tgt : List Char)
    (h : findMatch d title = some tgt) :
    tgt ≠ [] ∧ ∃ pre post, pre ++ tgt ++ post = title := by
  obtain ⟨i, _, hi⟩ := exists_of_findSomeEq _ _ _ h
  exact tryLens_spec d title i _ tgt hi

/-! ### Lemmas: fuel adequacy of the NG-word recursion -/

/-- With fuel exceeding the title length, one scan-and-remove round
strictly shortens the title, so the recursion always lands in the
`findMatch = none` case before fuel runs out; consequently any fuel
larger than the title length computes the same result.  -/
theorem removeNgWordsF_fuel :
    ∀ (L : Nat) (d : NGDict) (title : String), title.length ≤ L →
      ∀ m, title.length < m →
        removeNgWordsF d m title = removeNgWordsF d (title.length + 1) title := by
  intro L
  induction L with
  | zero =>
    intro d title hL m hm
    cases m with
    | zero => omega
    | succ m2 =>
      rw [removeNgWordsF, removeNgWordsF]
      cases hf : findMatch d (remove_ng_word_regex title).toList with
      | none => rfl
      | some tgt =>
        exfalso
        obtain ⟨htgt, hocc⟩ := findMatch_spec _ _ _ hf
        have hlt := removeOcc_length_lt tgt (remove_ng_word_regex title).toList htgt hocc
        have hle := remove_ng_word_regex_length_le title
        have heq := toList_length (remove_ng_word_regex title)
        omega
  | succ L ih =>
    intro d title hL m hm
    cases m with
    | zero => omega
    | succ m2 =>
      rw [removeNgWordsF, removeNgWordsF]
      cases hf : findMatch d (remove_ng_word_regex title).toList with
      | none => rfl
      | some tgt =>
        obtain ⟨htgt, hocc⟩ := findMatch_spec _ _ _ hf
        have hlt := removeOcc_length_lt tgt (remove_ng_word_regex title).toList htgt hocc
        have hle := remove_ng_word_regex_length_le title
        have htl := toList_length (remove_ng_word_regex title)
        have hnew : (String.mk (removeOcc tgt (remove_ng_word_regex title).toList)).length <
            title.length := by
          show (removeOcc tgt (remove_ng_word_regex title).toList).length < title.length
          omega
        have h1 := ih d (String.mk (removeOcc tgt (remove_ng_word_regex title).toList))
          (by omega) m2 (by omega)
        have h2 := ih d (String.mk (removeOcc tgt (remove_ng_word_regex title).toList))
          (by omega) title.length (by omega)
        show removeNgWordsF d m2 (String.mk (removeOcc tgt (remove_ng_word_regex title).toList)) =
          removeNgWordsF d title.length (String.mk (removeOcc tgt (remove_ng_word_regex title).toList))
        rw [h1, h2]

/-- With fuel exceeding the title length, the result of the NG-word
recursion contains no further dictionary match.  -/
theorem findMatch_removeNgWordsF :
    ∀ (n : Nat) (d : NGDict) (title : String), title.length < n →
      findMatch d (removeNgWordsF d n title).toList = none := by
  intro n
  induction n with
  | zero => intro d title h; omega
  | succ n ih =>
    intro d title h
    rw [removeNgWordsF]
    cases hf : findMatch d (remove_ng_word_regex title).toList with
    | none => exact hf
    | some tgt =>
      obtain ⟨htgt, hocc⟩ := findMatch_spec _ _ _ hf
      have hlt := removeOcc_length_lt tgt (remove_ng_word_regex title).toList htgt hocc
      have hle := remove_ng_word_regex_length_le title
      have htl := toList_length (remove_ng_word_regex title)
      exact ih d (String.mk (removeOcc tgt (remove_ng_word_regex title).toList)) (by
        show (removeOcc tgt (remove_ng_word_regex title).toList).length < n
        omega)

/-! ### Claim theorems: NG-word removal (C7, C8, C10) -/

/-- C7 (confirmed): NG dictionary removal uses leftmost-then-longest
precedence: at each starting offset the candidate substrings are tried
in decreasing length order, so with dictionary words AB and ABC and
input title XABCY the removal yields XY — the longer word ABC is
removed, not AB leaving CY.  -/
theorem ng_longest_match_precedence :
    remove_ng_words (get_nglist ["AB", "ABC"]) "XABCY" = "XY" := by decide

/-- C8 counterexample: re-applying `remove_ng_words` to its own output
is not always a no-op.  With the loaded dictionary {"Q"} and title
"12 34 x" the first application yields "34 x" (the leading digit token
is removed by the regex pass), and a second application yields "x",
because the recursion re-runs the regex pipeline whose leading
digit-token rule applies again to the new string head.  -/
theorem ng_fixed_point_counterexample :
    remove_ng_words (get_nglist ["Q"]) "12 34 x" = "34 x" ∧
    remove_ng_words (get_nglist ["Q"]) "34 x" = "x" ∧
    remove_ng_words (get_nglist ["Q"])
        (remove_ng_words (get_nglist ["Q"]) "12 34 x") ≠
      remove_ng_words (get_nglist ["Q"]) "12 34 x" := by decide

/-- C8 (amended): the dictionary-removal step does reach a fixed point:
for every loaded NG dictionary and every title, the output of
`remove_ng_words` contains no dictionary match, so re-running the
scan-and-remove step on the output removes nothing; it is the regex
pipeline re-run by a full second `remove_ng_words` application that can
change the output further.  -/
theorem ng_dictionary_scan_fixed_point (d : NGDict) (title : String) :
    findMatch d (remove_ng_words d title).toList = none :=
  findMatch_removeNgWordsF (title.length + 1) d title (Nat.lt_succ_self _)

/-- C10 (confirmed): `remove_ng_words` terminates on every input: every
matched substring is nonempty and occurs in the scanned title, so each
recursive call strictly shortens the title (first conjunct), and
consequently recursion fuel `title.length + 1` is enough — any larger
fuel computes the same result (second conjunct), bounding the recursion
depth by the initial title length.  -/
theorem remove_ng_words_terminates (d : NGDict) (title : String) :
    (∀ tgt, findMatch d (remove_ng_word_regex title).toList = some tgt →
      (String.mk (removeOcc tgt (remove_ng_word_regex title).toList)).length < title.length) ∧
    (∀ n, removeNgWordsF d (title.length + 1 + n) title = remove_ng_words d title) := by
  constructor
  · intro tgt hf
    obtain ⟨htgt, hocc⟩ := findMatch_spec _ _ _ hf
    have hlt := removeOcc_length_lt tgt (remove_ng_word_regex title).toList htgt hocc
    have hle := remove_ng_word_regex_length_le title
    have htl := toList_length (remove_ng_word_regex title)
    have hmk := mk_length (removeOcc tgt (remove_ng_word_regex title).toList)
    omega
  · intro n
    exact removeNgWordsF_fuel title.length d title (le_refl _) (title.length + 1 + n) (by omega)

/-- Witness for C10: with the loaded dictionary {"AB"} and title "xABy"
a match really fires, its removal strictly shortens the title, and
running with surplus fuel equals `remove_ng_words`.  -/
theorem remove_ng_words_terminates_witness :
    findMatch (get_nglist ["AB"]) (remove_ng_word_regex "xABy").toList = some ['A', 'B'] ∧
    (String.mk (removeOcc ['A', 'B'] (remove_ng_word_regex "xABy").toList)).length <
      ("xABy" : String).length ∧
    removeNgWordsF (get_nglist ["AB"]) (("xABy" : String).length + 1 + 5) "xABy" =
      remove_ng_words (get_nglist ["AB"]) "xABy" :=
  ⟨by decide,
   (remove_ng_words_terminates (get_nglist ["AB"]) "xABy").1 ['A', 'B'] (by decide),
   (remove_ng_words_terminates (get_nglist ["AB"]) "xABy").2 5⟩

/-! ### Claim C1: disjointness of the three token dictionaries -/

/-- Token `t` is in none of the three dictionaries.  -/
def noBucket (tp : TokenDicts) (t : String) : Prop :=
  tp.htrue t = none ∧ tp.hfalse t = none ∧ tp.hconflict t = none

/-- The conflict dictionary is disjoint from the other two at token
`t`.  -/
def sepConflict (tp : TokenDicts) (t : String) : Prop :=
  (tp.hconflict t).isSome → tp.htrue t = none ∧ tp.hfalse t = none

/-- Token `t` is a key of at most one of the three dictionaries.  -/
def atMostOneBucket (tp : TokenDicts) (t : String) : Prop :=
  ((tp.htrue t).isSome → tp.hfalse t = none ∧ tp.hconflict t = none) ∧
  ((tp.hfalse t).isSome → tp.htrue t = none ∧ tp.hconflict t = none) ∧
  sepConflict tp t

/-- A load row only touches its own token's entries.  -/
theorem readTokenRow_other (tp : TokenDicts) (r : Nat × Nat × String) (t : String)
    (h : r.2.2 ≠ t) :
    (readTokenRow tp r).htrue t = tp.htrue t ∧
    (readTokenRow tp r).hfalse t = tp.hfalse t ∧
    (readTokenRow tp r).hconflict t = tp.hconflict t := by
  obtain ⟨a, b, tok⟩ := r
  simp only [readTokenRow]
  have hne : ¬t = tok := fun hh => h hh.symm
  by_cases ha : a = 0
  · simp [ha, updFun, hne]
  · by_cases hb : b = 0 <;> simp [ha, hb, updFun, hne]

/-- Rows whose token differs from `t` leave all entries at `t`
unchanged.  -/
theorem loadTokensFrom_untouched :
    ∀ (rows : List (Nat × Nat × String)) (tp : TokenDicts) (t : String),
      (∀ r ∈ rows, r.2.2 ≠ t) →
      (loadTokensFrom tp rows).htrue t = tp.htrue t ∧
      (loadTokensFrom tp rows).hfalse t = tp.hfalse t ∧
      (loadTokensFrom tp rows).hconflict t = tp.hconflict t := by
  intro rows
  induction rows with
  | nil => intro tp t _; exact ⟨rfl, rfl, rfl⟩
  | cons r rest ih =>
    intro tp t h
    have h1 := readTokenRow_other tp r t (h r (by simp))
    have h2 := ih (readTokenRow tp r) t (fun q hq => h q (by simp [hq]))
    exact ⟨h2.1.trans h1.1, h2.2.1.trans h1.2.1, h2.2.2.trans h1.2.2⟩

/-- After loading rows with pairwise-distinct tokens into dictionaries
that do not yet hold `t`, token `t` lands in at most one dictionary.  -/
theorem loadTokensFrom_atMostOne :
    ∀ (rows : List (Nat × Nat × String)) (tp : TokenDicts) (t : String),
      (rows.map (fun r => r.2.2)).Nodup → noBucket tp t →
      atMostOneBucket (loadTokensFrom tp rows) t := by
  intro rows
  induction rows with
  | nil =>
    intro tp t _ hnb
    show atMostOneBucket tp t
    exact ⟨fun hs => by simp [hnb.1] at hs,
           fun hs => by simp [hnb.2.1] at hs,
           fun hs => by simp [hnb.2.2] at hs⟩
  | cons r rest ih =>
    intro tp t hnd hnb
    rw [List.map_cons, List.nodup_cons] at hnd
    by_cases hrt : r.2.2 = t
    · have hrest : ∀ q ∈ rest, q.2.2 ≠ t := by
        intro q hq hqe
        apply hnd.1
        have heq : r.2.2 = q.2.2 := by rw [hrt, hqe]
        rw [heq]
        exact List.mem_map_of_mem _ hq
      have huntouched := loadTokensFrom_untouched rest (readTokenRow tp r) t hrest
      have hstep : atMostOneBucket (readTokenRow tp r) t := by
        obtain ⟨a, b, tok⟩ := r
        have htok : tok = t := hrt
        subst htok
        simp only [readTokenRow]
        by_cases ha : a = 0
        · rw [if_pos ha]
          simp [atMostOneBucket, sepConflict, updFun, hnb.1, hnb.2.1, hnb.2.2]
        · rw [if_neg ha]
          by_cases hb : b = 0
          · rw [if_pos hb]
            simp [atMostOneBucket, sepConflict, updFun, hnb.1, hnb.2.1, hnb.2.2]
          · rw [if_neg hb]
            simp [atMostOneBucket, sepConflict, updFun, hnb.1, hnb.2.1, hnb.2.2]
      show atMostOneBucket (loadTokensFrom (readTokenRow tp r) rest) t
      unfold atMostOneBucket sepConflict at hstep ⊢
      rw [huntouched.1, huntouched.2.1, huntouched.2.2]
      exact hstep
    · have h1 := readTokenRow_other tp r t hrt
      have hnb2 : noBucket (readTokenRow tp r) t := by
        refine ⟨?_, ?_, ?_⟩
        · rw [h1.1]; exact hnb.1
        · rw [h1.2.1]; exact hnb.2.1
        · rw [h1.2.2]; exact hnb.2.2
      exact ih (readTokenRow tp r) t hnd.2 hnb2

/-- One override row preserves conflict-separation everywhere: the
override removes its token from the conflict dictionary, and other
tokens' entries are untouched.  -/
theorem addTokenRow_sep (r : String × Nat × Nat × String) (tp : TokenDicts)
    (h : ∀ u, sepConflict tp u) : ∀ t, sepConflict (addTokenRow tp r) t := by
  obtain ⟨flag, a, b, tok⟩ := r
  intro t
  simp only [addTokenRow]
  by_cases hf1 : flag = "対象" ∨ flag = "TRUE"
  · rw [if_pos hf1]
    intro hs
    by_cases ht : t = tok
    · simp [delFun, ht] at hs
    · simp only [delFun, ht, if_false] at hs
      have := h t hs
      simp [updFun, ht, this.1, this.2]
  · rw [if_neg hf1]
    by_cases hf2 : flag = "対象外" ∨ flag = "非対象" ∨ flag = "FALSE"
    · rw [if_pos hf2]
      intro hs
      by_cases ht : t = tok
      · simp [delFun, ht] at hs
      · simp only [delFun, ht, if_false] at hs
        have := h t hs
        simp [updFun, ht, this.1, this.2]
    · rw [if_neg hf2]
      exact h t

/-- The whole override file preserves conflict-separation.  -/
theorem applyAddFile_sep :
    ∀ (rows : List (String × Nat × Nat × String)) (tp : TokenDicts),
      (∀ u, sepConflict tp u) → ∀ t, sepConflict (applyAddFile tp rows) t := by
  intro rows
  induction rows with
  | nil => intro tp h t; exact h t
  | cons r rest ih =>
    intro tp h t
    exact ih (addTokenRow tp r) (addTokenRow_sep r tp h) t

/-- C1 counterexample: a token can end in two buckets at once.  Base
load row `(0, 5, "t")` files token "t" under FALSE; the override row
`("TRUE", 1, 0, "t")` then force-assigns it to TRUE, removing it only
from CONFLICT — afterwards "t" is a key of both `htrue` and `hfalse`.  -/
theorem token_buckets_counterexample :
    ((applyAddFile (loadTokens [(0, 5, "t")]) [("TRUE", 1, 0, "t")]).htrue "t").isSome = true ∧
    ((applyAddFile (loadTokens [(0, 5, "t")]) [("TRUE", 1, 0, "t")]).hfalse "t").isSome = true := by
  decide

/-- C1 (amended): provided the base load rows carry pairwise-distinct
tokens, after load and override the CONFLICT dictionary stays disjoint
from both TRUE and FALSE (an override removes its token from conflict);
but a token may end in both TRUE and FALSE when an override reassigns it
against its base bucket, as the counterexample shows.  -/
theorem token_buckets_amended (loads : List (Nat × Nat × String))
    (adds : List (String × Nat × Nat × String))
    (hnd : (loads.map (fun r => r.2.2)).Nodup) :
    ∀ t, sepConflict (applyAddFile (loadTokens loads) adds) t := by
  have hload : ∀ u, sepConflict (loadTokens loads) u := by
    intro u
    exact (loadTokensFrom_atMostOne loads emptyTokenDicts u hnd ⟨rfl, rfl, rfl⟩).2.2
  exact applyAddFile_sep adds (loadTokens loads) hload

/-- Witness for C1 (amended): a concrete distinct-token load plus an
override that moves a conflict token to TRUE.  -/
theorem token_buckets_amended_witness :
    (([((1 : Nat), (1 : Nat), "a"), (0, 2, "b")].map (fun r => r.2.2)).Nodup) ∧
    sepConflict (applyAddFile (loadTokens [(1, 1, "a"), (0, 2, "b")]) [("TRUE", 1, 0, "a")]) "a" :=
  ⟨by decide, token_buckets_amended [(1, 1, "a"), (0, 2, "b")] [("TRUE", 1, 0, "a")] (by decide) "a"⟩

/-! ### Claim C9: classification order in get_tokens_from_title -/

/-- Membership in a Python-set model after an `add`.  -/
theorem setAdd_mem (l : List String) (s t : String) : t ∈ setAdd l s ↔ t ∈ l ∨ t = s := by
  unfold setAdd
  by_cases h : l.contains s
  · rw [if_pos h]
    constructor
    · exact Or.inl
    · rintro (hl | he)
      · exact hl
      · subst he
        simpa using h
  · rw [if_neg h]
    simp

/-- Per-token membership characterization of one `classifyToken` step:
each set gains at most the current token, under exactly the bucket
conditions of the `if`/`elif` chain.  -/
theorem classifyToken_mem (tp : TokenDicts) (r : TokenResult) (tok t : String) :
    (t ∈ (classifyToken tp r tok).trueWords ↔
      t ∈ r.trueWords ∨ (t = tok ∧ (tp.htrue t).isSome)) ∧
    (t ∈ (classifyToken tp r tok).falseWords ↔
      t ∈ r.falseWords ∨ (t = tok ∧ tp.htrue t = none ∧ (tp.hfalse t).isSome)) ∧
    (t ∈ (classifyToken tp r tok).conflictWords ↔
      t ∈ r.conflictWords ∨
        (t = tok ∧ tp.htrue t = none ∧ tp.hfalse t = none ∧ (tp.hconflict t).isSome)) := by
  unfold classifyToken
  by_cases h1 : (tp.htrue tok).isSome
  · rw [if_pos h1]
    refine ⟨?_, ?_, ?_⟩
    · show t ∈ setAdd r.trueWords tok ↔ _
      rw [setAdd_mem]
      constructor
      · rintro (h | h)
        · exact Or.inl h
        · subst h; exact Or.inr ⟨rfl, h1⟩
      · rintro (h | ⟨he, _⟩)
        · exact Or.inl h
        · exact Or.inr he
    · show t ∈ r.falseWords ↔ _
      constructor
      · exact Or.inl
      · rintro (h | ⟨he, hn, _⟩)
        · exact h
        · subst he; rw [hn] at h1; simp at h1
    · show t ∈ r.conflictWords ↔ _
      constructor
      · exact Or.inl
      · rintro (h | ⟨he, hn, _, _⟩)
        · exact h
        · subst he; rw [hn] at h1; simp at h1
  · rw [if_neg h1]
    have h1n : tp.htrue tok = none := Option.not_isSome_iff_eq_none.mp h1
    by_cases h2 : (tp.hfalse tok).isSome
    · rw [if_pos h2]
      refine ⟨?_, ?_, ?_⟩
      · show t ∈ r.trueWords ↔ _
        constructor
        · exact Or.inl
        · rintro (h | ⟨he, hs⟩)
          · exact h
          · subst he; exact absurd hs h1
      · show t ∈ setAdd r.falseWords tok ↔ _
        rw [setAdd_mem]
        constructor
        · rintro (h | h)
          · exact Or.inl h
          · subst h; exact Or.inr ⟨rfl, h1n, h2⟩
        · rintro (h | ⟨he, _⟩)
          · exact Or.inl h
          · exact Or.inr he
      · show t ∈ r.conflictWords ↔ _
        constructor
        · exact Or.inl
        · rintro (h | ⟨he, _, hn, _⟩)
          · exact h
          · subst he; rw [hn] at h2; simp at h2
    · rw [if_neg h2]
      have h2n : tp.hfalse tok = none := Option.not_isSome_iff_eq_none.mp h2
      by_cases h3 : (tp.hconflict tok).isSome
      · rw [if_pos h3]
        refine ⟨?_, ?_, ?_⟩
        · show t ∈ r.trueWords ↔ _
          constructor
          · exact Or.inl
          · rintro (h | ⟨he, hs⟩)
            · exact h
            · subst he; exact absurd hs h1
        · show t ∈ r.falseWords ↔ _
          constructor
          · exact Or.inl
          · rintro (h | ⟨he, _, hs⟩)
            · exact h
            · subst he; exact absurd hs h2
        · show t ∈ setAdd r.conflictWords tok ↔ _
          rw [setAdd_mem]
          constructor
          · rintro (h | h)
            · exact Or.inl h
            · subst h; exact Or.inr ⟨rfl, h1n, h2n, h3⟩
          · rintro (h | ⟨he, _⟩)
            · exact Or.inl h
            · exact Or.inr he
      · rw [if_neg h3]
        refine ⟨?_, ?_, ?_⟩
        · show t ∈ r.trueWords ↔ _
          constructor
          · exact Or.inl
          · rintro (h | ⟨he, hs⟩)
            · exact h
            · subst he; exact absurd hs h1
        · show t ∈ r.falseWords ↔ _
          constructor
          · exact Or.inl
          · rintro (h | ⟨he, _, hs⟩)
            · exact h
            · subst he; exact absurd hs h2
        · show t ∈ r.conflictWords ↔ _
          constructor
          · exact Or.inl
          · rintro (h | ⟨he, _, _, hs⟩)
            · exact h
            · subst he; exact absurd hs h3

/-- Membership characterization of the whole token loop.  -/
theorem classify_foldl_mem (tp : TokenDicts) :
    ∀ (toks : List String) (r : TokenResult) (t : String),
      (t ∈ (toks.foldl (classifyToken tp) r).trueWords ↔
        t ∈ r.trueWords ∨ (t ∈ toks ∧ (tp.htrue t).isSome)) ∧
      (t ∈ (toks.foldl (classifyToken tp) r).falseWords ↔
        t ∈ r.falseWords ∨ (t ∈ toks ∧ tp.htrue t = none ∧ (tp.hfalse t).isSome)) ∧
      (t ∈ (toks.foldl (classifyToken tp) r).conflictWords ↔
        t ∈ r.conflictWords ∨
          (t ∈ toks ∧ tp.htrue t = none ∧ tp.hfalse t = none ∧ (tp.hconflict t).isSome)) := by
  intro toks
  induction toks with
  | nil => intro r t; simp
  | cons tok rest ih =>
    intro r t
    rw [List.foldl_cons]
    have hih := ih (classifyToken tp r tok) t
    have hm := classifyToken_mem tp r tok t
    refine ⟨?_, ?_, ?_⟩
    · rw [hih.1, hm.1]
      constructor
      · rintro ((h | ⟨he, hs⟩) | ⟨hr, hs⟩)
        · exact Or.inl h
        · exact Or.inr ⟨by simp [he], hs⟩
        · exact Or.inr ⟨by simp [hr], hs⟩
      · rintro (h | ⟨hmem, hs⟩)
        · exact Or.inl (Or.inl h)
        · rcases List.mem_cons.mp hmem with he | hr
          · exact Or.inl (Or.inr ⟨he, hs⟩)
          · exact Or.inr ⟨hr, hs⟩
    · rw [hih.2.1, hm.2.1]
      constructor
      · rintro ((h | ⟨he, hs⟩) | ⟨hr, hs⟩)
        · exact Or.inl h
        · exact Or.inr ⟨by simp [he], hs⟩
        · exact Or.inr ⟨by simp [hr], hs⟩
      · rintro (h | ⟨hmem, hs⟩)
        · exact Or.inl (Or.inl h)
        · rcases List.mem_cons.mp hmem with he | hr
          · exact Or.inl (Or.inr ⟨he, hs⟩)
          · exact Or.inr ⟨hr, hs⟩
    · rw [hih.2.2, hm.2.2]
      constructor
      · rintro ((h | ⟨he, hs⟩) | ⟨hr, hs⟩)
        · exact Or.inl h
        · exact Or.inr ⟨by simp [he], hs⟩
        · exact Or.inr ⟨by simp [hr], hs⟩
      · rintro (h | ⟨hmem, hs⟩)
        · exact Or.inl (Or.inl h)
        · rcases List.mem_cons.mp hmem with he | hr
          · exact Or.inl (Or.inr ⟨he, hs⟩)
          · exact Or.inr ⟨hr, hs⟩

/-- The three bucket counters never overtake the length counter: each
token bumps the length and at most one bucket.  -/
theorem classify_foldl_counts (tp : TokenDicts) :
    ∀ (toks : List String) (r : TokenResult),
      r.stats.trueCnt + r.stats.falseCnt + r.stats.conflictCnt ≤ r.stats.length →
      (toks.foldl (classifyToken tp) r).stats.trueCnt +
        (toks.foldl (classifyToken tp) r).stats.falseCnt +
        (toks.foldl (classifyToken tp) r).stats.conflictCnt ≤
        (toks.foldl (classifyToken tp) r).stats.length := by
  intro toks
  induction toks with
  | nil => intro r h; exact h
  | cons tok rest ih =>
    intro r h
    rw [List.foldl_cons]
    apply ih
    unfold classifyToken
    by_cases h1 : (tp.htrue tok).isSome
    · rw [if_pos h1]; simp only; omega
    · rw [if_neg h1]
      by_cases h2 : (tp.hfalse tok).isSome
      · rw [if_pos h2]; simp only; omega
      · rw [if_neg h2]
        by_cases h3 : (tp.hconflict tok).isSome
        · rw [if_pos h3]; simp only; omega
        · rw [if_neg h3]; simp only; omega

/-- C9 (confirmed): in `get_tokens_from_title` the dictionaries are
tested in the fixed order TRUE, FALSE, CONFLICT: a token joins the TRUE
set exactly when it is a TRUE key, the FALSE set exactly when it is a
FALSE key but not a TRUE key, and the CONFLICT set exactly when it is a
CONFLICT key and neither of the others — so TRUE wins over FALSE which
wins over CONFLICT, every token joins at most one result set, and the
three bucket counters together never exceed the token count.  -/
theorem get_tokens_precedence (tp : TokenDicts) (title : String) (t : String) :
    (t ∈ (get_tokens_from_title tp title).trueWords ↔
      t ∈ pySplit title ∧ (tp.htrue t).isSome) ∧
    (t ∈ (get_tokens_from_title tp title).falseWords ↔
      t ∈ pySplit title ∧ tp.htrue t = none ∧ (tp.hfalse t).isSome) ∧
    (t ∈ (get_tokens_from_title tp title).conflictWords ↔
      t ∈ pySplit title ∧ tp.htrue t = none ∧ tp.hfalse t = none ∧ (tp.hconflict t).isSome) ∧
    ((get_tokens_from_title tp title).stats.trueCnt +
      (get_tokens_from_title tp title).stats.falseCnt +
      (get_tokens_from_title tp title).stats.conflictCnt ≤
      (get_tokens_from_title tp title).stats.length) := by
  have hm := classify_foldl_mem tp (pySplit title) emptyTokenResult t
  have hc := classify_foldl_counts tp (pySplit title) emptyTokenResult (by simp [emptyTokenResult])
  unfold get_tokens_from_title
  refine ⟨?_, ?_, ?_, hc⟩
  · rw [hm.1]; simp [emptyTokenResult]
  · rw [hm.2.1]; simp [emptyTokenResult]
  · rw [hm.2.2]; simp [emptyTokenResult]

/-! ### Claim C4: totality of the decision rule -/

/-- C4 (confirmed): the listing decision rule is total: the verdict is
one of UNKNOWN, TRUE, FALSE; it is UNKNOWN exactly when both merged
counters are zero; otherwise it is TRUE exactly when
`num_true >= num_false` (ties favour TRUE) and FALSE exactly when
`num_true < num_false`.  -/
theorem decide_rule_total (num_true num_false : Nat) :
    (decideLabel num_true num_false = "UNKNOWN" ∨ decideLabel num_true num_false = "TRUE" ∨
      decideLabel num_true num_false = "FALSE") ∧
    (decideLabel num_true num_false = "UNKNOWN" ↔ num_true = 0 ∧ num_false = 0) ∧
    (¬(num_true = 0 ∧ num_false = 0) →
      ((decideLabel num_true num_false = "TRUE" ↔ num_false ≤ num_true) ∧
       (decideLabel num_true num_false = "FALSE" ↔ num_true < num_false))) := by
  unfold decideLabel
  by_cases h0 : num_true = 0 ∧ num_false = 0
  · rw [if_pos h0]
    exact ⟨Or.inl rfl, ⟨fun _ => h0, fun _ => rfl⟩, fun hc => absurd h0 hc⟩
  · rw [if_neg h0]
    by_cases hge : num_true ≥ num_false
    · rw [if_pos hge]
      refine ⟨Or.inr (Or.inl rfl), ⟨fun he => absurd he (by decide), fun hh => absurd hh h0⟩,
        fun _ => ⟨⟨fun _ => hge, fun _ => rfl⟩,
                  ⟨fun he => absurd he (by decide), fun hlt => absurd hge (by omega)⟩⟩⟩
    · rw [if_neg hge]
      refine ⟨Or.inr (Or.inr rfl), ⟨fun he => absurd he (by decide), fun hh => absurd hh h0⟩,
        fun _ => ⟨⟨fun he => absurd he (by decide), fun hle => absurd hle (by omega)⟩,
                  ⟨fun _ => by omega, fun _ => rfl⟩⟩⟩

/-- Witness for C4 at the concrete counters (2, 1).  -/
theorem decide_rule_total_witness :
    (decideLabel 2 1 = "UNKNOWN" ∨ decideLabel 2 1 = "TRUE" ∨ decideLabel 2 1 = "FALSE") ∧
    (decideLabel 2 1 = "UNKNOWN" ↔ (2 : Nat) = 0 ∧ (1 : Nat) = 0) ∧
    (¬((2 : Nat) = 0 ∧ (1 : Nat) = 0) →
      ((decideLabel 2 1 = "TRUE" ↔ (1 : Nat) ≤ 2) ∧ (decideLabel 2 1 = "FALSE" ↔ (2 : Nat) < 1))) :=
  decide_rule_total 2 1

/-! ### Claim C3: title normalization in filter_data -/

/-- Classifying the empty title yields the empty result.  -/
theorem get_tokens_empty (tp : TokenDicts) : get_tokens_from_title tp "" = emptyTokenResult := rfl

/-- Merging the empty result on the right is a no-op.  -/
theorem mergeTR_empty_right (a : TokenResult) : mergeTR a emptyTokenResult = a := by
  obtain ⟨⟨l, t, f, c⟩, tw, fw, cw⟩ := a
  simp [mergeTR, emptyTokenResult, setUnion]

/-- Concrete dictionaries for the C3 counterexample: the single token X
is a TRUE key.  -/
def tpX : TokenDicts :=
  ⟨fun s => if s = "X" then some 1 else none, fun _ => none, fun _ => none⟩

/-- C3 counterexample: the primary title is NOT normalized before
classification.  On an 11-field row whose primary title is "[X]" and
whose secondary title is empty, the source classifies the raw token
"[X]" (no dictionary hit, verdict UNKNOWN), while the spec's contract —
both titles bracket/whitespace-normalized first — would classify the
token "X" (a TRUE hit, verdict TRUE).  -/
theorem filter_normalization_counterexample :
    (filter_data_line tpX "0\tT\t0\t[X]\t\tf\tf\tf\tf\tf\tf").map (fun r => r.answer) =
      some "UNKNOWN" ∧
    (filter_data_line_spec tpX "0\tT\t0\t[X]\t\tf\tf\tf\tf\tf\tf").map (fun r => r.answer) =
      some "TRUE" ∧
    filter_data_line tpX "0\tT\t0\t[X]\t\tf\tf\tf\tf\tf\tf" ≠
      filter_data_line_spec tpX "0\tT\t0\t[X]\t\tf\tf\tf\tf\tf\tf" := by decide

/-- C3 (amended): for every listing row, the secondary title (ititle) is
bracket/whitespace-normalized and the primary title (ptitle) is
classified raw; the two per-title stats are merged additively and the
result sets by union (the source's nonempty-title guards are immaterial
because classifying an empty title contributes nothing).  -/
theorem filter_ptitle_raw_merge (tp : TokenDicts) (line : String) :
    filter_data_line tp line = filter_data_line_amended tp line := by
  unfold filter_data_line filter_data_line_amended
  by_cases h11 : (pySplitTab line).length < 11
  · rw [if_pos h11, if_pos h11]
  · rw [if_neg h11, if_neg h11]
    by_cases hi : collapseWsStr (bracketToSpace ((pySplitTab line)[4]?.getD "")) = ""
    · by_cases hp : (pySplitTab line)[3]?.getD "" = ""
      · simp [List.getD, hi, hp, get_tokens_empty, mergeTR_empty_right]
      · simp [List.getD, hi, hp, get_tokens_empty, mergeTR_empty_right]
    · by_cases hp : (pySplitTab line)[3]?.getD "" = ""
      · simp [List.getD, hi, hp, get_tokens_empty, mergeTR_empty_right]
      · simp [List.getD, hi, hp]

/-! ### Claim C2: the provenance flag of the Aggregation Reporter -/

/-- Key membership after a `bump`.  -/
theorem memKeys_bump (m : List (String × Nat)) (k t : String) :
    memKeys (bump m k) t = true ↔ memKeys m t = true ∨ t = k := by
  unfold bump
  by_cases h : memKeys m k
  · rw [if_pos h]
    unfold memKeys
    rw [List.any_map]
    have hsame : ((fun p => p.1 == t) ∘ fun p => if p.1 == k then (p.1, p.2 + 1) else p) =
        (fun p : String × Nat => p.1 == t) := by
      funext p
      by_cases hp : p.1 = k <;> simp [hp]
    rw [hsame]
    constructor
    · exact Or.inl
    · rintro (hm | he)
      · exact hm
      · subst he; exact h
  · rw [if_neg h]
    unfold memKeys
    rw [List.any_append]
    simp only [Bool.or_eq_true, List.any_cons, List.any_nil, Bool.or_false, beq_iff_eq]
    constructor
    · rintro (hm | he)
      · exact Or.inl hm
      · exact Or.inr he.symm
    · rintro (hm | he)
      · exact Or.inl hm
      · exact Or.inr he.symm

/-- Invariant carried through the aggregation loops: the `item` dict is
never written, and every key of `hash_tokens` is a key of `prod`.  -/
def aggInv (st : AggState) : Prop :=
  st.item = [] ∧ ∀ t, memKeys st.hash_tokens t = true → memKeys st.prod t = true

/-- One token step preserves the invariant.  -/
theorem aggToken_inv (pred tok : String) (st : AggState) (h : aggInv st) :
    aggInv (aggToken pred st tok) := by
  refine ⟨h.1, ?_⟩
  intro t ht
  show memKeys (bump st.prod tok) t = true
  have := (memKeys_bump st.hash_tokens tok t).mp ht
  rw [memKeys_bump]
  rcases this with hm | he
  · exact Or.inl (h.2 t hm)
  · exact Or.inr he

/-- The token loop preserves the invariant.  -/
theorem aggTokens_fold_inv (pred : String) :
    ∀ (toks : List String) (st : AggState), aggInv st →
      aggInv (toks.foldl (aggToken pred) st) := by
  intro toks
  induction toks with
  | nil => intro st h; exact h
  | cons tok rest ih => intro st h; exact ih (aggToken pred st tok) (aggToken_inv pred tok st h)

/-- One `main_processing` row preserves the invariant.  -/
theorem procLineMain_inv (flag : String) (st : AggState) (line : String) (h : aggInv st) :
    aggInv (procLineMain flag st line) := by
  unfold procLineMain
  cases get_info_from_example flag (pyStrip line) with
  | none => exact h
  | some q =>
    obtain ⟨prediction, index, ptitle, ititle, g1⟩ := q
    show aggInv (if prediction = "" then st
      else aggTokens st prediction
        (if ptitle = "" then collapseWsStr (bracketToSpace ititle) else ptitle))
    by_cases hp : prediction = ""
    · rw [if_pos hp]; exact h
    · rw [if_neg hp]; exact aggTokens_fold_inv prediction _ st h

/-- One `main_ng_word` row preserves the invariant.  -/
theorem procLineNg_inv (d : NGDict) (flag : String) (st : AggState) (line : String)
    (h : aggInv st) : aggInv (procLineNg d flag st line) := by
  unfold procLineNg
  cases get_info_from_example flag (pyStrip line) with
  | none => exact h
  | some q =>
    obtain ⟨prediction, index, ptitle, ititle, g1⟩ := q
    show aggInv (if prediction = "" then st
      else aggTokens st prediction
        (remove_ng_words d (collapseWsStr (bracketToSpace
          (if ptitle = "" then collapseWsStr (bracketToSpace ititle) else ptitle)))))
    by_cases hp : prediction = ""
    · rw [if_pos hp]; exact h
    · rw [if_neg hp]; exact aggTokens_fold_inv prediction _ st h

/-- The whole `main_processing` stream fold preserves the invariant.  -/
theorem mainFold_inv (flag : String) :
    ∀ (lines : List String) (st : AggState), aggInv st →
      aggInv (lines.foldl (procLineMain flag) st) := by
  intro lines
  induction lines with
  | nil => intro st h; exact h
  | cons l rest ih => intro st h; exact ih _ (procLineMain_inv flag st l h)

/-- The whole `main_ng_word` stream fold preserves the invariant.  -/
theorem ngFold_inv (d : NGDict) (flag : String) :
    ∀ (lines : List String) (st : AggState), aggInv st →
      aggInv (lines.foldl (procLineNg d flag) st) := by
  intro lines
  induction lines with
  | nil => intro st h; exact h
  | cons l rest ih => intro st h; exact ih _ (procLineNg_inv d flag st l h)

/-- Membership is invariant under the insertion sort.  -/
theorem mem_insertAsc (s t : String) : ∀ (l : List String), t ∈ insertAsc s l ↔ t = s ∨ t ∈ l := by
  intro l
  induction l with
  | nil => simp [insertAsc]
  | cons x rest ih =>
    unfold insertAsc
    by_cases h : strLe s x
    · rw [if_pos h]; simp
    · rw [if_neg h]
      simp only [List.mem_cons, ih]
      tauto

/-- Membership is invariant under `sortStrs`.  -/
theorem mem_sortStrs (t : String) : ∀ (l : List String), t ∈ sortStrs l ↔ t ∈ l := by
  intro l
  induction l with
  | nil => simp [sortStrs]
  | cons x rest ih =>
    show t ∈ insertAsc x (sortStrs rest) ↔ _
    rw [mem_insertAsc]
    simp only [List.mem_cons, ih]

/-- Key membership matches membership in the key projection.  -/
theorem memKeys_iff_mem_map (m : List (String × Nat)) (t : String) :
    memKeys m t = true ↔ t ∈ m.map (fun p => p.1) := by
  unfold memKeys
  rw [List.any_eq_true]
  constructor
  · rintro ⟨p, hp, he⟩
    rw [beq_iff_eq] at he
    subst he
    exact List.mem_map_of_mem _ hp
  · intro hm
    obtain ⟨p, hp, he⟩ := List.mem_map.mp hm
    exact ⟨p, hp, by rw [beq_iff_eq, he]⟩

/-- Every record emitted by `put_token_list` with an empty `item` dict
and a `prod` dict covering the token keys carries the flag "Prod".  -/
theorem put_token_list_flag (hash_tokens : List (String × Nat))
    (comp : List (String × List (String × Nat))) (prod : List (String × Nat))
    (hcov : ∀ t, memKeys hash_tokens t = true → memKeys prod t = true)
    (r : OutRec) (hr : r ∈ put_token_list hash_tokens comp [] prod) : r.flag = "Prod" := by
  unfold put_token_list at hr
  obtain ⟨token, htok, hfn⟩ := List.mem_filterMap.mp hr
  have htk : memKeys hash_tokens token = true :=
    (memKeys_iff_mem_map hash_tokens token).mpr ((mem_sortStrs token _).mp htok)
  have hprod : memKeys prod token = true := hcov token htk
  have hitem : memKeys ([] : List (String × Nat)) token = false := rfl
  rw [hitem, hprod] at hfn
  by_cases h1 : token.length < 2
  · rw [if_pos h1] at hfn; exact absurd hfn (by simp)
  · rw [if_neg h1] at hfn
    by_cases h2 : !hasWordChar token
    · rw [if_pos h2] at hfn; exact absurd hfn (by simp)
    · rw [if_neg h2] at hfn
      by_cases h3 : isAllDigits token
      · rw [if_pos h3] at hfn; exact absurd hfn (by simp)
      · rw [if_neg h3] at hfn
        by_cases h4 : isQuantityToken token
        · rw [if_pos h4] at hfn; exact absurd hfn (by simp)
        · rw [if_neg h4] at hfn
          simp only [if_neg, if_pos] at hfn
          have : some (⟨compFreq comp token "TRUE", compFreq comp token "FALSE", token,
              "Prod"⟩ : OutRec) = some r := by
            simpa using hfn
          rw [← Option.some_inj.mp this]

/-- C2 counterexample: the `prod` membership set IS populated by the
token loop (`prod[token] += 1`), so the provenance flag of every emitted
token line of this concrete two-token stream reads "Prod", not
"NONE".  -/
theorem aggregation_flag_counterexample :
    (main_processing "PREDICTION"
        ["TRUE\t1\tTRUE\t0\tab cd\tx\tx\tx\tx\tx\tx\tx"]).map (fun r => r.flag) =
      ["Prod", "Prod"] := by decide

/-- C2 (amended): the `item` membership set is never populated, but the
`prod` set receives every counted token, in both the plain Aggregation
Reporter (`main_processing`) and its NG-word variant (`main_ng_word`);
consequently the provenance flag column of every emitted token line
reads "Prod" (never "NONE" and never an "Item" variant), for every
input stream and mode flag.  -/
theorem aggregation_flag_amended :
    (∀ (flag : String) (lines : List String) (r : OutRec),
      r ∈ main_processing flag lines → r.flag = "Prod") ∧
    (∀ (d : NGDict) (flag : String) (lines : List String) (r : OutRec),
      r ∈ main_ng_word d flag lines → r.flag = "Prod") := by
  constructor
  · intro flag lines r hr
    have hinv : aggInv (lines.foldl (procLineMain flag) emptyAggState) :=
      mainFold_inv flag lines emptyAggState ⟨rfl, fun t h => by simp [memKeys, emptyAggState] at h⟩
    have hr2 : r ∈ put_token_list (lines.foldl (procLineMain flag) emptyAggState).hash_tokens
        (lines.foldl (procLineMain flag) emptyAggState).comp
        (lines.foldl (procLineMain flag) emptyAggState).item
        (lines.foldl (procLineMain flag) emptyAggState).prod := hr
    rw [hinv.1] at hr2
    exact put_token_list_flag _ _ _ hinv.2 r hr2
  · intro d flag lines r hr
    have hinv : aggInv (lines.foldl (procLineNg d flag) emptyAggState) :=
      ngFold_inv d flag lines emptyAggState ⟨rfl, fun t h => by simp [memKeys, emptyAggState] at h⟩
    have hr2 : r ∈ put_token_list (lines.foldl (procLineNg d flag) emptyAggState).hash_tokens
        (lines.foldl (procLineNg d flag) emptyAggState).comp
        (lines.foldl (procLineNg d flag) emptyAggState).item
        (lines.foldl (procLineNg d flag) emptyAggState).prod := hr
    rw [hinv.1] at hr2
    exact put_token_list_flag _ _ _ hinv.2 r hr2

/-- Witness for C2 (amended): the record for token "ab" of the concrete
stream is emitted and its flag is "Prod".  -/
theorem aggregation_flag_amended_witness :
    (⟨1, 0, "ab", "Prod"⟩ : OutRec) ∈
      main_processing "PREDICTION" ["TRUE\t1\tTRUE\t0\tab cd\tx\tx\tx\tx\tx\tx\tx"] ∧
    (⟨1, 0, "ab", "Prod"⟩ : OutRec).flag = "Prod" :=
  ⟨by decide,
   aggregation_flag_amended.1 "PREDICTION" ["TRUE\t1\tTRUE\t0\tab cd\tx\tx\tx\tx\tx\tx\tx"]
     ⟨1, 0, "ab", "Prod"⟩ (by decide)⟩

/-! ### Claims C5 and C6: the Rancode Refiner -/

/-- C5 (confirmed): a group's verdict is TRUE only under strict majority
(`true_count / total_count > 0.5`, modelled exactly as
`2 * true_count > total_count`), otherwise NONE (first conjunct); and
every well-formed row (at least 12 fields, non-sentinel rancode) of a
strict-majority group has its label field overwritten to TRUE
unconditionally — the catalogue `pmd` is arbitrary and never consulted
on this path (second conjunct).  -/
theorem rancode_majority_overwrites :
    (∀ (h : List (String × List (String × Nat))) (rc : String) (st : GroupStat),
      (rc, st) ∈ decideRancode h →
      st.ans = if 2 * st.numTrue > st.total then "TRUE" else "NONE") ∧
    (∀ (pmd : ProductMaster) (pb cb : String) (stats : List (String × GroupStat))
      (line : String) (st : GroupStat),
      12 ≤ (pySplitTab line).length →
      (pySplitTab line).getD 3 "" ≠ "0" →
      lookupStat stats ((pySplitTab line).getD 3 "") = some st →
      st.total < 2 * st.numTrue →
      refineLine pmd pb cb stats line = joinTab ((pySplitTab line).set 0 "TRUE")) := by
  constructor
  · intro h rc st hmem
    unfold decideRancode at hmem
    obtain ⟨p, hp, heq⟩ := List.mem_map.mp hmem
    have h2 := (Prod.mk.injEq _ _ _ _).mp heq
    rw [← h2.2]
  · intro pmd pb cb stats line st h12 hrc hlook hmaj
    unfold refineLine
    have hlen : ¬(pySplitTab line).length < 12 := by omega
    rw [if_neg hlen, if_neg hrc, hlook]
    show (if 2 * st.numTrue > st.total then joinTab ((pySplitTab line).set 0 "TRUE")
      else if !pmd.code_mem ("10" ++ get_companycode_from_jancode
        (pyReplaceAll ((pySplitTab line).getD 3 "") "1001000")) then line
      else match pmd.pm ("10" ++ get_companycode_from_jancode
          (pyReplaceAll ((pySplitTab line).getD 3 "") "1001000"))
          (pyReplaceAll ((pySplitTab line).getD 3 "") "1001000") with
        | none => line
        | some e =>
          if productMatch e pb && companyMatch e cb then joinTab ((pySplitTab line).set 0 "TRUE")
          else joinTab (pySplitTab line)) = joinTab ((pySplitTab line).set 0 "TRUE")
    rw [if_pos hmaj]

/-- The catalogue used by the C5 witness: empty.  -/
def pmdEmpty : ProductMaster := ⟨fun _ => false, fun _ _ => none⟩

/-- Witness for C5: a concrete 12-field row of a 2-out-of-3 TRUE group
has its FALSE label forced to TRUE.  -/
theorem rancode_majority_overwrites_witness :
    (12 ≤ (pySplitTab "FALSE\t1\tT\tRC\tt\tt\tt\tt\tt\tt\tt\tt").length) ∧
    ((pySplitTab "FALSE\t1\tT\tRC\tt\tt\tt\tt\tt\tt\tt\tt").getD 3 "" ≠ "0") ∧
    (lookupStat [("RC", ⟨2, 3, "TRUE"⟩)]
       ((pySplitTab "FALSE\t1\tT\tRC\tt\tt\tt\tt\tt\tt\tt\tt").getD 3 "") =
      some ⟨2, 3, "TRUE"⟩) ∧
    ((⟨2, 3, "TRUE"⟩ : GroupStat).total < 2 * (⟨2, 3, "TRUE"⟩ : GroupStat).numTrue) ∧
    refineLine pmdEmpty "" "" [("RC", ⟨2, 3, "TRUE"⟩)] "FALSE\t1\tT\tRC\tt\tt\tt\tt\tt\tt\tt\tt" =
      joinTab ((pySplitTab "FALSE\t1\tT\tRC\tt\tt\tt\tt\tt\tt\tt\tt").set 0 "TRUE") :=
  ⟨by decide, by decide, by decide, by decide,
   rancode_majority_overwrites.2 pmdEmpty "" "" [("RC", ⟨2, 3, "TRUE"⟩)]
     "FALSE\t1\tT\tRC\tt\tt\tt\tt\tt\tt\tt\tt" ⟨2, 3, "TRUE"⟩
     (by decide) (by decide) (by decide) (by decide)⟩

/-- Substring containment agrees with the existential decomposition.  -/
theorem strContains_iff (hay sub : String) :
    strContains hay sub = true ↔ ∃ pre post, pre ++ sub.toList ++ post = hay.toList := by
  unfold strContains
  rw [List.any_eq_true]
  constructor
  · rintro ⟨i, _, hp⟩
    rw [isPrefixOf_iff_exists] at hp
    obtain ⟨t, ht⟩ := hp
    refine ⟨hay.toList.take i, t, ?_⟩
    rw [List.append_assoc, ht, List.take_append_drop]
  · rintro ⟨pre, post, hpp⟩
    refine ⟨pre.length, ?_, ?_⟩
    · rw [List.mem_range]
      have hlen := congrArg List.length hpp
      simp [List.length_append] at hlen
      have ht := toList_length hay
      omega
    · rw [isPrefixOf_iff_exists]
      refine ⟨post, ?_⟩
      have hdrop : hay.toList.drop pre.length = sub.toList ++ post := by
        rw [← hpp, List.append_assoc, List.drop_left]
      rw [hdrop]

/-- C6 (confirmed): on the catalogue cross-check path (well-formed row,
non-sentinel rancode, group ratio at most one half, company code present
in the catalogue code index, entry present under company and item code),
the row's label is overwritten to TRUE exactly when both flags hold, and
otherwise the row is emitted unchanged (first conjunct); the company
flag holds exactly when the case-folded target maker string occurs as a
substring of the catalogue maker name or of the alternate maker name
(second conjunct); the product flag holds exactly under symmetric
containment — target inside catalogue brand, catalogue brand inside
target, or either containment against any alternate brand name (third
conjunct).  -/
theorem rancode_catalogue_crosscheck (pmd : ProductMaster) (pb cb : String)
    (stats : List (String × GroupStat)) (line : String) (st : GroupStat) (e : PMEntry)
    (h12 : 12 ≤ (pySplitTab line).length)
    (hrc : (pySplitTab line).getD 3 "" ≠ "0")
    (hlook : lookupStat stats ((pySplitTab line).getD 3 "") = some st)
    (hmaj : 2 * st.numTrue ≤ st.total)
    (hcode : pmd.code_mem ("10" ++ get_companycode_from_jancode
      (pyReplaceAll ((pySplitTab line).getD 3 "") "1001000")) = true)
    (hentry : pmd.pm ("10" ++ get_companycode_from_jancode
        (pyReplaceAll ((pySplitTab line).getD 3 "") "1001000"))
      (pyReplaceAll ((pySplitTab line).getD 3 "") "1001000") = some e) :
    (refineLine pmd pb cb stats line =
      if productMatch e pb && companyMatch e cb then joinTab ((pySplitTab line).set 0 "TRUE")
      else joinTab (pySplitTab line)) ∧
    (companyMatch e cb = true ↔
      (e.name ≠ "" ∧ ∃ pre post, pre ++ cb.toList ++ post = (pyLower e.name).toList) ∨
      (∃ m, e.mname = some m ∧ m ≠ "" ∧
        ∃ pre post, pre ++ cb.toList ++ post = (pyLower m).toList)) ∧
    (productMatch e pb = true ↔
      (e.b ≠ "" ∧ ((∃ pre post, pre ++ pb.toList ++ post = (pyLower e.b).toList) ∨
                   (∃ pre post, pre ++ (pyLower e.b).toList ++ post = pb.toList))) ∨
      (∃ mb0, mb0 ∈ e.mb ∧
        ((∃ pre post, pre ++ pb.toList ++ post = (pyLower mb0).toList) ∨
         (∃ pre post, pre ++ (pyLower mb0).toList ++ post = pb.toList)))) := by
  refine ⟨?_, ?_, ?_⟩
  · unfold refineLine
    have hlen : ¬(pySplitTab line).length < 12 := by omega
    rw [if_neg hlen, if_neg hrc, hlook]
    show (if 2 * st.numTrue > st.total then joinTab ((pySplitTab line).set 0 "TRUE")
      else if !pmd.code_mem ("10" ++ get_companycode_from_jancode
        (pyReplaceAll ((pySplitTab line).getD 3 "") "1001000")) then line
      else match pmd.pm ("10" ++ get_companycode_from_jancode
          (pyReplaceAll ((pySplitTab line).getD 3 "") "1001000"))
          (pyReplaceAll ((pySplitTab line).getD 3 "") "1001000") with
        | none => line
        | some e =>
          if productMatch e pb && companyMatch e cb then joinTab ((pySplitTab line).set 0 "TRUE")
          else joinTab (pySplitTab line)) = _
    rw [if_neg (by omega : ¬2 * st.numTrue > st.total), hcode, hentry]
    simp
  · unfold companyMatch
    cases hmn : e.mname with
    | none =>
      simp only [hmn, Bool.or_false, Bool.and_eq_true, decide_eq_true_eq, strContains_iff]
      constructor
      · intro h
        exact Or.inl h
      · rintro (h | ⟨m, hm, _⟩)
        · exact h
        · exact Option.noConfusion hm
    | some m =>
      simp only [hmn, Bool.or_eq_true, Bool.and_eq_true, decide_eq_true_eq, strContains_iff]
      constructor
      · rintro (h | h)
        · exact Or.inl h
        · exact Or.inr ⟨m, rfl, h.1, h.2⟩
      · rintro (h | ⟨m2, hm2, hne, hocc⟩)
        · exact Or.inl h
        · injection hm2 with hm2
          subst hm2
          exact Or.inr ⟨hne, hocc⟩
  · unfold productMatch
    rw [Bool.or_eq_true, Bool.and_eq_true, Bool.or_eq_true, List.any_eq_true]
    simp only [Bool.or_eq_true, decide_eq_true_eq, strContains_iff]

/-- The catalogue used by the C6 witness: one company with one item.  -/
def pmdAladdin : ProductMaster :=
  ⟨fun c => c == "104901234",
   fun c j =>
     if c == "104901234" && j == "49012345678" then
       some ⟨"aladdin co", "aladdin blue flame", none, []⟩
     else none⟩

/-- Witness for C6: on a concrete non-majority group row whose item is
catalogued, the label is rewritten according to the two flags (here both
hold: "aladdin" occurs in maker name "aladdin co" and in brand
"aladdin blue flame").  -/
theorem rancode_catalogue_crosscheck_witness :
    (12 ≤ (pySplitTab "FALSE\t1\tT\t49012345678\tt\tt\tt\tt\tt\tt\tt\tt").length) ∧
    ((pySplitTab "FALSE\t1\tT\t49012345678\tt\tt\tt\tt\tt\tt\tt\tt").getD 3 "" ≠ "0") ∧
    (lookupStat [("49012345678", ⟨1, 3, "NONE"⟩)]
       ((pySplitTab "FALSE\t1\tT\t49012345678\tt\tt\tt\tt\tt\tt\tt\tt").getD 3 "") =
      some ⟨1, 3, "NONE"⟩) ∧
    (2 * (⟨1, 3, "NONE"⟩ : GroupStat).numTrue ≤ (⟨1, 3, "NONE"⟩ : GroupStat).total) ∧
    refineLine pmdAladdin "aladdin" "aladdin" [("49012345678", ⟨1, 3, "NONE"⟩)]
        "FALSE\t1\tT\t49012345678\tt\tt\tt\tt\tt\tt\tt\tt" =
      (if productMatch ⟨"aladdin co", "aladdin blue flame", none, []⟩ "aladdin" &&
          companyMatch ⟨"aladdin co", "aladdin blue flame", none, []⟩ "aladdin" then
        joinTab ((pySplitTab "FALSE\t1\tT\t49012345678\tt\tt\tt\tt\tt\tt\tt\tt").set 0 "TRUE")
      else joinTab (pySplitTab "FALSE\t1\tT\t49012345678\tt\tt\tt\tt\tt\tt\tt\tt")) :=
  ⟨by decide, by decide, by decide, by decide,
   (rancode_catalogue_crosscheck pmdAladdin "aladdin" "aladdin"
     [("49012345678", ⟨1, 3, "NONE"⟩)] "FALSE\t1\tT\t49012345678\tt\tt\tt\tt\tt\tt\tt\tt"
     ⟨1, 3, "NONE"⟩ ⟨"aladdin co", "aladdin blue flame", none, []⟩
     (by decide) (by decide) (by decide) (by decide) (by decide) (by decide)).1⟩

end BrandFilter
